import Mathlib
set_option maxHeartbeats 1000000
/-!
Shallow embedding of the real-time presence and call-signaling core of the
lan-chat-web repository: the PresenceManager (WebSocket endpoint /ws) and
the CallManager (WebSocket endpoint /ws/calls).

Modelling conventions:
* user identities are strings, connections (WebSocket handles) are numbered;
* a JavaScript Map with string keys is embedded as an association list in
  insertion order (Map.get / Map.has / Map.set / Map.delete below);
* a JavaScript Set of connections is embedded as a duplicate-free list in
  insertion order (setAdd / setDel below);
* outbound sends are recorded in an append-only trace carried in the state.
-/


abbrev UserId := String

abbrev ConnId := Nat

namespace AMap

/-- JS Map.get: the value of the binding of key k, if any. -/
def get? (m : List (UserId × α)) (k : UserId) : Option α :=
  (m.find? (fun p => p.1 == k)).map (fun p => p.2)

/-- JS Map.has. -/
def hasKey (m : List (UserId × α)) (k : UserId) : Bool :=
  (m.find? (fun p => p.1 == k)).isSome

/-- JS Map.set: overwrite the binding of k when present, else append it. -/
def set (m : List (UserId × α)) (k : UserId) (v : α) : List (UserId × α) :=
  if hasKey m k then m.map (fun p => if p.1 == k then (k, v) else p)
  else m ++ [(k, v)]

/-- JS Map.delete. -/
def erase (m : List (UserId × α)) (k : UserId) : List (UserId × α) :=
  m.filter (fun p => p.1 != k)

/-- JS Map.keys in insertion order. -/
def keys (m : List (UserId × α)) : List UserId :=
  m.map (fun p => p.1)

end AMap

/-- JS Set.add on a duplicate-free insertion-ordered list. -/
def setAdd (s : List ConnId) (ws : ConnId) : List ConnId :=
  if s.contains ws then s else s ++ [ws]

/-- JS Set.delete. -/
def setDel (s : List ConnId) (ws : ConnId) : List ConnId :=
  s.filter (fun w => w != ws)

/-- The shared connection registry: user identity to set of open connections.
Both managers hold one as their userConnections field. -/
abbrev Registry := List (UserId × List ConnId)

/-- addConnection, implemented identically in PresenceManager and CallManager:
create an empty set for the user when absent, then add the socket to it. -/
def addConnection (m : Registry) (u : UserId) (ws : ConnId) : Registry :=
  let m1 := if AMap.hasKey m u then m else AMap.set m u []
  AMap.set m1 u (setAdd ((AMap.get? m1 u).getD []) ws)

/-- removeConnection, implemented identically in both managers: drop the socket
from the user entry and delete the whole entry the moment the set is empty. -/
def removeConnection (m : Registry) (u : UserId) (ws : ConnId) : Registry :=
  match AMap.get? m u with
  | none => m
  | some conns =>
      let conns2 := setDel conns ws
      if conns2.length == 0 then AMap.erase m u else AMap.set m u conns2

/-- Current snapshot of a user's open connections (empty when no entry). -/
def connsFor (m : Registry) (u : UserId) : List ConnId :=
  (AMap.get? m u).getD []

/-- Registry key-presence invariant of spec section 3: a user identity is a key
of the map iff its connection set is non-empty. -/
def regInvariant (m : Registry) : Prop :=
  ∀ u, AMap.hasKey m u = true ↔ connsFor m u ≠ []

/-- Nodup of every connection set stored in the registry, stated via get?. -/
def regSetsNodup (m : Registry) : Prop :=
  ∀ u l, AMap.get? m u = some l → l.Nodup

inductive CallType
  | voice
  | video
deriving DecidableEq, Repr

inductive CallStatus
  | ringing
  | connected
  | ended
deriving DecidableEq, Repr

/-- An ActiveCall record as stored in CallManager.activeCalls.  The startTime
field (a wall-clock Date never read by any handler) is not modelled. -/
structure ActiveCall where
  callId : String
  callType : CallType
  callerId : UserId
  receiverId : UserId
  status : CallStatus
deriving DecidableEq, Repr

/-- The type discriminator of an incoming CallMessage; a tag outside the five
handled cases of the switch is modelled by the unknown constructor. -/
inductive CMsgType
  | call_initiate
  | call_accept
  | call_reject
  | call_end
  | call_busy
  | unknown
deriving DecidableEq, Repr

/-- An incoming CallMessage.  JS treats a missing field and an empty string
alike as falsy; the guards below check both. -/
structure CallMessage where
  type : CMsgType
  callId : Option String := none
  callType : Option CallType := none
  targetUserId : Option UserId := none
  callerName : Option String := none
  callerPhoto : Option String := none
deriving DecidableEq, Repr

/-- Outbound message kinds produced by the CallManager. -/
inductive CallOutMsg
  | user_offline (callId : String)
  | incoming_call (callId : String) (callType : CallType) (callerId : UserId)
      (callerName : Option String) (callerPhoto : Option String)
  | call_accepted (callId : String)
  | call_rejected (callId : String)
  | call_ended (callId : String)
  | call_busy (callId : String)
deriving DecidableEq, Repr

/-- One sendToUser invocation: the target user, the snapshot of the open
connections the frame goes out on, and the payload. -/
structure Notif where
  target : UserId
  targetConns : List ConnId
  msg : CallOutMsg
deriving DecidableEq, Repr

namespace CallManager

/-- CallManager state: connection registry, active-call map (insertion
order), and the append-only trace of sendToUser notifications. -/
structure CState where
  userConnections : Registry
  activeCalls : List (String × ActiveCall)
  emits : List Notif
deriving DecidableEq, Repr

/-- sendToUser: early return when the user has no entry, else one
notification fanned out to the snapshot of the user's connections. -/
def sendToUser (conns : Registry) (u : UserId) (msg : CallOutMsg) : List Notif :=
  match AMap.get? conns u with
  | none => []
  | some s => [{ target := u, targetConns := s, msg := msg }]

def handleCallInitiate (s : CState) (callerId : UserId) (m : CallMessage) : CState :=
  match m.targetUserId, m.callId, m.callType with
  | some target, some callId, some ctype =>
      if target == "" || callId == "" then s
      else
        match AMap.get? s.userConnections target with
        | none =>
            { s with emits := s.emits ++
                sendToUser s.userConnections callerId (CallOutMsg.user_offline callId) }
        | some receiverConnections =>
            if receiverConnections.length == 0 then
              { s with emits := s.emits ++
                  sendToUser s.userConnections callerId (CallOutMsg.user_offline callId) }
            else
              let call : ActiveCall :=
                { callId := callId, callType := ctype, callerId := callerId,
                  receiverId := target, status := CallStatus.ringing }
              { s with
                activeCalls := AMap.set s.activeCalls callId call,
                emits := s.emits ++
                  sendToUser s.userConnections target
                    (CallOutMsg.incoming_call callId ctype callerId m.callerName m.callerPhoto) }
  | _, _, _ => s

def handleCallAccept (s : CState) (userId : UserId) (m : CallMessage) : CState :=
  match m.callId with
  | none => s
  | some callId =>
      if callId == "" then s
      else
        match AMap.get? s.activeCalls callId with
        | none => s
        | some call =>
            if call.receiverId != userId then s
            else
              { s with
                activeCalls := AMap.set s.activeCalls callId { call with status := CallStatus.connected },
                emits := s.emits ++
                  sendToUser s.userConnections call.callerId (CallOutMsg.call_accepted callId) }

def handleCallReject (s : CState) (userId : UserId) (m : CallMessage) : CState :=
  match m.callId with
  | none => s
  | some callId =>
      if callId == "" then s
      else
        match AMap.get? s.activeCalls callId with
        | none => s
        | some call =>
            if call.receiverId != userId then s
            else
              { s with
                activeCalls := AMap.erase s.activeCalls callId,
                emits := s.emits ++
                  sendToUser s.userConnections call.callerId (CallOutMsg.call_rejected callId) }

def handleCallEnd (s : CState) (userId : UserId) (m : CallMessage) : CState :=
  match m.callId with
  | none => s
  | some callId =>
      if callId == "" then s
      else
        match AMap.get? s.activeCalls callId with
        | none => s
        | some call =>
            let otherUserId := if call.callerId == userId then call.receiverId else call.callerId
            { s with
              activeCalls := AMap.erase s.activeCalls callId,
              emits := s.emits ++
                sendToUser s.userConnections otherUserId (CallOutMsg.call_ended callId) }

def handleCallBusy (s : CState) (userId : UserId) (m : CallMessage) : CState :=
  match m.callId with
  | none => s
  | some callId =>
      if callId == "" then s
      else
        match AMap.get? s.activeCalls callId with
        | none => s
        | some call =>
            if call.receiverId != userId then s
            else
              { s with
                activeCalls := AMap.erase s.activeCalls callId,
                emits := s.emits ++
                  sendToUser s.userConnections call.callerId (CallOutMsg.call_busy callId) }

/-- Does this live call involve the given user as caller or receiver? -/
def involves (userId : UserId) (p : String × ActiveCall) : Bool :=
  p.2.callerId == userId || p.2.receiverId == userId

/-- The other party of a call, as computed by the disconnect scan. -/
def otherParty (userId : UserId) (c : ActiveCall) : UserId :=
  if c.callerId == userId then c.receiverId else c.callerId

/-- handleUserDisconnect: scan all live calls, notify the other party of each
call involving the user and delete it.  The forEach sends and deletes per
entry in insertion order; sends depend only on userConnections and the call
fields, so the scan equals a filter plus a map. -/
def handleUserDisconnect (s : CState) (userId : UserId) : CState :=
  { s with
    activeCalls := s.activeCalls.filter (fun p => !(involves userId p)),
    emits := s.emits ++
      ((s.activeCalls.filter (involves userId)).map
        (fun p => sendToUser s.userConnections (otherParty userId p.2)
          (CallOutMsg.call_ended p.1))).flatten }

def handleMessage (s : CState) (userId : UserId) (m : CallMessage) : CState :=
  match m.type with
  | CMsgType.call_initiate => handleCallInitiate s userId m
  | CMsgType.call_accept => handleCallAccept s userId m
  | CMsgType.call_reject => handleCallReject s userId m
  | CMsgType.call_end => handleCallEnd s userId m
  | CMsgType.call_busy => handleCallBusy s userId m
  | CMsgType.unknown => s

/-- Externally visible events of the call-signaling endpoint.  connect is a
successful handshake (token valid, user found); close is the transport close
of a currently registered connection; reap is the heartbeat sweep reaping a
connection whose liveness flag was not refreshed. -/
inductive CEvent
  | connect (u : UserId) (ws : ConnId)
  | close (u : UserId) (ws : ConnId)
  | reap (u : UserId) (ws : ConnId)
  | message (u : UserId) (m : CallMessage)
deriving DecidableEq, Repr

/-- One step of the CallManager.  Guards encode transport preconditions: a
close or reap event fires only for a registered connection, and a message is
only delivered on an open (hence registered) connection of its sender.  A
reap runs the sweep body and then, because terminate() raises the close
event, the close handler once more. -/
def cstep (s : CState) (e : CEvent) : CState :=
  match e with
  | CEvent.connect u ws =>
      { s with userConnections := addConnection s.userConnections u ws }
  | CEvent.close u ws =>
      if (connsFor s.userConnections u).contains ws then
        handleUserDisconnect
          { s with userConnections := removeConnection s.userConnections u ws } u
      else s
  | CEvent.reap u ws =>
      if (connsFor s.userConnections u).contains ws then
        let s1 := handleUserDisconnect
          { s with userConnections := removeConnection s.userConnections u ws } u
        handleUserDisconnect
          { s1 with userConnections := removeConnection s1.userConnections u ws } u
      else s
  | CEvent.message u m =>
      if (connsFor s.userConnections u).isEmpty then s else handleMessage s u m

def cinit : CState := { userConnections := [], activeCalls := [], emits := [] }

def crun (tr : List CEvent) : CState := tr.foldl cstep cinit

end CallManager

/-- Outbound frames of the presence endpoint: a user_status broadcast to all
connected clients, or the presence snapshot sent to one new connection. -/
inductive PEmit
  | status (u : UserId) (isOnline : Bool)
  | snapshot (ws : ConnId) (onlineUsers : List UserId)
deriving DecidableEq, Repr

namespace PresenceManager

/-- PresenceManager state: connection registry, the set of users with a
pending offline timer (the offlineTimeouts map holds at most one timer per
user, so only key presence is observable), successful persistence calls
(storage.updateUser that did not throw), and the emitted frames. -/
structure PState where
  userConnections : Registry
  offlineTimeouts : List UserId
  persisted : List (UserId × Bool)
  emits : List PEmit
deriving DecidableEq, Repr

def isUserOnline (s : PState) (u : UserId) : Bool :=
  AMap.hasKey s.userConnections u &&
    decide (0 < (connsFor s.userConnections u).length)

def broadcastUserStatus (s : PState) (u : UserId) (isOnline : Bool) : PState :=
  { s with emits := s.emits ++ [PEmit.status u isOnline] }

/-- setUserOnline with an oracle telling whether storage.updateUser throws;
on a throw the error is caught and logged, and only the persistence trace
differs.  The broadcast runs in either case. -/
def setUserOnline (s : PState) (u : UserId) (isOnline : Bool) (persistOk : Bool) : PState :=
  let currentlyOnline := isUserOnline s u
  if !isOnline && currentlyOnline then s
  else
    let s1 := if persistOk then { s with persisted := s.persisted ++ [(u, isOnline)] } else s
    broadcastUserStatus s1 u isOnline

/-- scheduleOffline: clear any pending timer for the user and set a fresh
one; at the level of key presence this just ensures the user has a pending
timer. -/
def scheduleOffline (s : PState) (u : UserId) : PState :=
  { s with offlineTimeouts :=
      if s.offlineTimeouts.contains u then s.offlineTimeouts
      else s.offlineTimeouts ++ [u] }

def sendOnlineUsers (s : PState) (ws : ConnId) : PState :=
  { s with emits := s.emits ++ [PEmit.snapshot ws (AMap.keys s.userConnections)] }

/-- The connection handler after a successful handshake: cancel any pending
offline timer, compute wasOffline before registering, register, then either
setUserOnline (true Offline-to-Online edge) or a plain broadcast, and always
send the snapshot to the new connection. -/
def connectHandler (s : PState) (u : UserId) (ws : ConnId) (persistOk : Bool) : PState :=
  let s0 := { s with offlineTimeouts := s.offlineTimeouts.filter (fun x => x != u) }
  let wasOffline := !(AMap.hasKey s0.userConnections u) ||
                    (connsFor s0.userConnections u).length == 0
  let s1 := { s0 with userConnections := addConnection s0.userConnections u ws }
  let s2 := if wasOffline then setUserOnline s1 u true persistOk
            else broadcastUserStatus s1 u true
  sendOnlineUsers s2 ws

/-- The close handler: unregister, and when the user now has no connection,
schedule the offline grace timer. -/
def closeHandler (s : PState) (u : UserId) (ws : ConnId) : PState :=
  let s1 := { s with userConnections := removeConnection s.userConnections u ws }
  if !(AMap.hasKey s1.userConnections u) ||
     (connsFor s1.userConnections u).length == 0
  then scheduleOffline s1 u else s1

/-- The grace-timer callback: re-check that the user still has zero
connections, flip offline when so, then delete the timer entry. -/
def fireHandler (s : PState) (u : UserId) (persistOk : Bool) : PState :=
  let s1 := if !(AMap.hasKey s.userConnections u) ||
               (connsFor s.userConnections u).length == 0
            then setUserOnline s u false persistOk else s
  { s1 with offlineTimeouts := s1.offlineTimeouts.filter (fun x => x != u) }

/-- Externally visible events of the presence endpoint.  connect carries the
persistence oracle for the setUserOnline it may run; fire is the pending
grace timer of the user going off. -/
inductive PEvent
  | connect (u : UserId) (ws : ConnId) (persistOk : Bool)
  | close (u : UserId) (ws : ConnId)
  | reap (u : UserId) (ws : ConnId)
  | fire (u : UserId) (persistOk : Bool)
deriving DecidableEq, Repr

/-- One step of the PresenceManager.  Guards encode transport and timer
preconditions: close and reap fire only for a registered connection, and a
timer only fires while pending (clearTimeout prevents a cancelled timer from
firing).  A reap runs the sweep body (unregister plus unconditional
scheduleOffline) and then, because terminate() raises the close event, the
close handler. -/
def pstep (s : PState) (e : PEvent) : PState :=
  match e with
  | PEvent.connect u ws persistOk => connectHandler s u ws persistOk
  | PEvent.close u ws =>
      if (connsFor s.userConnections u).contains ws then closeHandler s u ws else s
  | PEvent.reap u ws =>
      if (connsFor s.userConnections u).contains ws then
        closeHandler
          (scheduleOffline
            { s with userConnections := removeConnection s.userConnections u ws } u) u ws
      else s
  | PEvent.fire u persistOk =>
      if s.offlineTimeouts.contains u then fireHandler s u persistOk else s

def pinit : PState :=
  { userConnections := [], offlineTimeouts := [], persisted := [], emits := [] }

def prun (tr : List PEvent) : PState := tr.foldl pstep pinit

def prunFrom (s : PState) (tr : List PEvent) : PState := tr.foldl pstep s

/-- Count of offline user_status broadcasts for a user in an emission trace. -/
def offlineCount (l : List PEmit) (u : UserId) : Nat :=
  l.countP (fun e => decide (e = PEmit.status u false))

/-- Count of successful handshakes of a user in an event trace. -/
def connectCount (tr : List PEvent) (u : UserId) : Nat :=
  tr.countP (fun e => match e with
    | PEvent.connect v _ _ => v == u
    | _ => false)

end PresenceManager

namespace CallManager

/-- Master invariant of the reachable CallManager states: the registry
invariant, duplicate-free connection sets, duplicate-free call identifiers,
and both parties of every live call having at least one open connection. -/
def CInv (s : CState) : Prop :=
  regInvariant s.userConnections ∧
  regSetsNodup s.userConnections ∧
  (AMap.keys s.activeCalls).Nodup ∧
  ∀ K c, AMap.get? s.activeCalls K = some c →
    connsFor s.userConnections c.callerId ≠ [] ∧
    connsFor s.userConnections c.receiverId ≠ []

/-- Number of notifications in a trace with a given target and payload. -/
def countNotif (l : List Notif) (v : UserId) (msg : CallOutMsg) : Nat :=
  l.countP (fun n => decide (n.target = v ∧ n.msg = msg))

/-- The notifications produced by one disconnect scan of user u over the live
call list l, routed against registry conns. -/
def dcEmits (conns : Registry) (u : UserId) (l : List (String × ActiveCall)) : List Notif :=
  ((l.filter (involves u)).map
    (fun p => sendToUser conns (otherParty u p.2) (CallOutMsg.call_ended p.1))).flatten

def c5_offline_trace : List CEvent := [CEvent.connect "a" 1]

def c5_online_trace : List CEvent := [CEvent.connect "a" 1, CEvent.connect "b" 2]

def c6_init_msg : CallMessage :=
  { type := CMsgType.call_initiate, callId := some "c1",
    callType := some CallType.voice, targetUserId := some "b" }

def c6_trace : List CEvent :=
  [CEvent.connect "a" 1, CEvent.connect "b" 2,
   CEvent.message "a" c6_init_msg,
   CEvent.message "b" { type := CMsgType.call_accept, callId := some "c1" }]

def c7_init_msg : CallMessage :=
  { type := CMsgType.call_initiate, callId := some "c1",
    callType := some CallType.voice, targetUserId := some "b" }

def c7_trace : List CEvent :=
  [CEvent.connect "a" 1, CEvent.connect "b" 2, CEvent.connect "x" 3,
   CEvent.message "a" c7_init_msg]

def c2_init_msg : CallMessage :=
  { type := CMsgType.call_initiate, callId := some "c1",
    callType := some CallType.voice, targetUserId := some "b" }

def c2_trace : List CEvent :=
  [CEvent.connect "a" 1, CEvent.connect "b" 2, CEvent.message "a" c2_init_msg]

def c2_self_msg : CallMessage :=
  { type := CMsgType.call_initiate, callId := some "c1",
    callType := some CallType.voice, targetUserId := some "a" }

def c2_self_trace : List CEvent :=
  [CEvent.connect "a" 1, CEvent.message "a" c2_self_msg]

def c10_init_msg : CallMessage :=
  { type := CMsgType.call_initiate, callId := some "c1",
    callType := some CallType.voice, targetUserId := some "b" }

def c10_trace : List CEvent :=
  [CEvent.connect "a" 1, CEvent.connect "a" 2, CEvent.connect "b" 3,
   CEvent.message "a" c10_init_msg]

end CallManager

/-- An abstract registry operation: one addConnection or removeConnection
call, in either manager. -/
inductive RegOp
  | add (u : UserId) (ws : ConnId)
  | remove (u : UserId) (ws : ConnId)
deriving DecidableEq, Repr

def applyRegOp (m : Registry) : RegOp → Registry
  | RegOp.add u ws => addConnection m u ws
  | RegOp.remove u ws => removeConnection m u ws

/-- Run an arbitrary interleaving of registry operations from the empty
registry both managers start with. -/
def runRegOps (ops : List RegOp) : Registry := ops.foldl applyRegOp []

namespace PresenceManager

/-- Number of pending-timer entries for a user (0 or 1 in reachable states). -/
def timerCount (s : PState) (u : UserId) : Nat :=
  s.offlineTimeouts.countP (fun x => x == u)

/-- Potential of a user: pending timers plus open connections.  Together with
the offline-broadcast count it is bounded by the number of connects. -/
def pPot (s : PState) (u : UserId) : Nat :=
  timerCount s u + (connsFor s.userConnections u).length

end PresenceManager

namespace AMap

theorem hasKey_eq_isSome_get? (m : List (UserId × α)) (k : UserId) :
    hasKey m k = (get? m k).isSome := by
  simp [hasKey, get?]

theorem find?_map_update_self (t : List (UserId × α)) (k : UserId) (v : α) :
    (t.map (fun p => if p.1 == k then (k, v) else p)).find? (fun p => p.1 == k)
      = (t.find? (fun p => p.1 == k)).map (fun _ => (k, v)) := by
  induction t with
  | nil => rfl
  | cons p t ih =>
    by_cases hp : p.1 = k
    · simp [List.find?, hp]
    · have hp' : (p.1 == k) = false := by simp [hp]
      simp only [List.map_cons, hp', Bool.false_eq_true, if_false, List.find?, hp']
      exact ih

theorem find?_map_update_ne (t : List (UserId × α)) (k x : UserId) (v : α) (h : x ≠ k) :
    (t.map (fun p => if p.1 == k then (k, v) else p)).find? (fun p => p.1 == x)
      = t.find? (fun p => p.1 == x) := by
  induction t with
  | nil => rfl
  | cons p t ih =>
    by_cases hp : p.1 = k
    · have hkx : (k == x) = false := by
        simp only [beq_eq_false_iff_ne, ne_eq]
        exact fun hc => h hc.symm
      have hpx : (p.1 == x) = false := by
        rw [hp]; exact hkx
      simp only [List.map_cons, hp, if_pos, List.find?, hkx, hpx, beq_self_eq_true]
      simpa [hp] using ih
    · have hp' : (p.1 == k) = false := by simp [hp]
      by_cases hx : p.1 = x
      · have hx' : (p.1 == x) = true := by simp [hx]
        simp [List.find?, hp', hx']
      · have hx' : (p.1 == x) = false := by simp [hx]
        simp only [List.map_cons, hp', Bool.false_eq_true, if_false, List.find?, hx']
        exact ih

theorem get?_set_self (m : List (UserId × α)) (k : UserId) (v : α) :
    get? (set m k v) k = some v := by
  unfold set
  by_cases h : hasKey m k = true
  · rw [if_pos h]
    unfold get?
    rw [find?_map_update_self]
    unfold hasKey at h
    rcases Option.isSome_iff_exists.mp h with ⟨p, hp⟩
    simp [hp]
  · rw [if_neg h]
    unfold get? hasKey at *
    rw [List.find?_append]
    have hnone : m.find? (fun p => p.1 == k) = none := by
      cases hm : m.find? (fun p => p.1 == k) with
      | none => rfl
      | some p => rw [hm] at h; simp at h
    simp [hnone, List.find?]

theorem get?_set_ne (m : List (UserId × α)) (k x : UserId) (v : α) (h : x ≠ k) :
    get? (set m k v) x = get? m x := by
  unfold set
  by_cases hk : hasKey m k = true
  · rw [if_pos hk]
    unfold get?
    rw [find?_map_update_ne m k x v h]
  · rw [if_neg hk]
    unfold get?
    rw [List.find?_append]
    have hkx : (k == x) = false := by
      simp only [beq_eq_false_iff_ne, ne_eq]
      exact fun hc => h hc.symm
    cases hm : m.find? (fun p => p.1 == x) with
    | none => simp [List.find?, hkx]
    | some p => simp

theorem get?_erase_self (m : List (UserId × α)) (k : UserId) :
    get? (erase m k) k = none := by
  unfold get? erase
  rw [Option.map_eq_none', List.find?_eq_none]
  intro p hp
  have := List.of_mem_filter hp
  simp only [bne_iff_ne, ne_eq] at this
  simp [this]

theorem get?_erase_ne (m : List (UserId × α)) (k x : UserId) (h : x ≠ k) :
    get? (erase m k) x = get? m x := by
  unfold get? erase
  congr 1
  induction m with
  | nil => rfl
  | cons p t ih =>
    by_cases hp : p.1 = k
    · have hp' : (p.1 != k) = false := by simp [hp]
      have hx : (p.1 == x) = false := by
        rw [hp]
        simp only [beq_eq_false_iff_ne, ne_eq]
        exact fun hc => h hc.symm
      simp only [List.filter_cons, hp', Bool.false_eq_true, if_false, List.find?, hx]
      exact ih
    · have hp' : (p.1 != k) = true := by simp [hp]
      by_cases hx : p.1 = x
      · have hx' : (p.1 == x) = true := by simp [hx]
        simp [List.filter_cons, hp', List.find?, hx']
      · have hx' : (p.1 == x) = false := by simp [hx]
        simp only [List.filter_cons, hp', if_pos, List.find?, hx']
        exact ih

theorem mem_of_get?_eq_some {m : List (UserId × α)} {k : UserId} {v : α}
    (h : get? m k = some v) : (k, v) ∈ m := by
  unfold get? at h
  rw [Option.map_eq_some'] at h
  obtain ⟨p, hp, hv⟩ := h
  have hmem := List.mem_of_find?_eq_some hp
  have hkey := List.find?_some hp
  rw [beq_iff_eq] at hkey
  have : p = (k, v) := by
    cases p
    simp_all
  rwa [this] at hmem

theorem get?_eq_some_of_mem {m : List (UserId × α)} {k : UserId} {v : α}
    (hnd : (keys m).Nodup) (hmem : (k, v) ∈ m) : get? m k = some v := by
  induction m with
  | nil => cases hmem
  | cons p t ih =>
    have hnd1 : p.1 ∉ keys t := by
      simp only [keys, List.map_cons, List.nodup_cons] at hnd
      exact hnd.1
    have hnd2 : (keys t).Nodup := by
      simp only [keys, List.map_cons, List.nodup_cons] at hnd
      exact hnd.2
    rcases List.mem_cons.mp hmem with h | h
    · subst h
      simp [get?, List.find?]
    · have hk : k ∈ keys t := by
        simp only [keys, List.mem_map]
        exact ⟨(k, v), h, rfl⟩
      have hp : (p.1 == k) = false := by
        simp only [beq_eq_false_iff_ne, ne_eq]
        intro hc
        rw [hc] at hnd1
        exact hnd1 hk
      simp only [get?, List.find?, hp]
      exact ih hnd2 h

theorem keys_set (m : List (UserId × α)) (k : UserId) (v : α) :
    keys (set m k v) = if hasKey m k then keys m else keys m ++ [k] := by
  unfold set
  by_cases h : hasKey m k = true
  · rw [if_pos h, if_pos h]
    simp only [keys, List.map_map]
    apply List.map_congr_left
    intro p _
    by_cases hp : p.1 = k
    · simp [hp]
    · simp [hp]
  · rw [if_neg h, if_neg h]
    simp [keys]

theorem not_mem_keys_of_hasKey_false {m : List (UserId × α)} {k : UserId}
    (h : hasKey m k = false) : k ∉ keys m := by
  intro hc
  simp only [keys, List.mem_map] at hc
  obtain ⟨p, hp, hpk⟩ := hc
  unfold hasKey at h
  cases hm : m.find? (fun q => q.1 == k) with
  | some q => rw [hm] at h; simp at h
  | none =>
    rw [List.find?_eq_none] at hm
    exact absurd (by simp [hpk]) (hm p hp)

theorem keys_nodup_set {m : List (UserId × α)} {k : UserId} {v : α}
    (h : (keys m).Nodup) : (keys (set m k v)).Nodup := by
  rw [keys_set]
  by_cases hk : hasKey m k = true
  · rwa [if_pos hk]
  · rw [if_neg hk]
    rw [List.nodup_append]
    refine ⟨h, List.nodup_singleton k, ?_⟩
    intro a ha hb
    simp only [List.mem_singleton] at hb
    subst hb
    exact not_mem_keys_of_hasKey_false (by simpa using hk) ha

theorem keys_filter_sublist (m : List (UserId × α)) (p : UserId × α → Bool) :
    (keys (m.filter p)).Sublist (keys m) :=
  List.Sublist.map _ (List.filter_sublist m)

theorem keys_nodup_filter {m : List (UserId × α)} (p : UserId × α → Bool)
    (h : (keys m).Nodup) : (keys (m.filter p)).Nodup :=
  (keys_filter_sublist m p).nodup h

theorem keys_nodup_erase {m : List (UserId × α)} {k : UserId}
    (h : (keys m).Nodup) : (keys (erase m k)).Nodup :=
  keys_nodup_filter _ h

end AMap

theorem setAdd_ne_nil (s : List ConnId) (ws : ConnId) : setAdd s ws ≠ [] := by
  unfold setAdd
  by_cases h : s.contains ws = true
  · rw [if_pos h]
    intro hc
    subst hc
    simp at h
  · rw [if_neg h]
    simp

theorem setAdd_nodup {s : List ConnId} (h : s.Nodup) (ws : ConnId) :
    (setAdd s ws).Nodup := by
  unfold setAdd
  by_cases hc : s.contains ws = true
  · rwa [if_pos hc]
  · rw [if_neg hc]
    rw [List.nodup_append]
    refine ⟨h, List.nodup_singleton ws, ?_⟩
    intro a ha hb
    simp only [List.mem_singleton] at hb
    subst hb
    simp at hc
    exact hc ha

theorem setDel_nodup {s : List ConnId} (h : s.Nodup) (ws : ConnId) :
    (setDel s ws).Nodup :=
  h.filter _

theorem setDel_setDel (s : List ConnId) (ws : ConnId) :
    setDel (setDel s ws) ws = setDel s ws := by
  unfold setDel
  rw [List.filter_filter]
  apply List.filter_congr
  intro x _
  cases h : (x != ws) <;> simp [h]

theorem length_setDel_le (s : List ConnId) (ws : ConnId) :
    (setDel s ws).length ≤ s.length :=
  List.length_filter_le _ s

theorem length_setDel_lt_of_mem {s : List ConnId} {ws : ConnId} (h : ws ∈ s) :
    (setDel s ws).length < s.length := by
  unfold setDel
  rw [List.length_filter_lt_length_iff_exists]
  exact ⟨ws, h, by simp⟩

theorem mem_setDel_iff {s : List ConnId} {ws x : ConnId} :
    x ∈ setDel s ws ↔ x ∈ s ∧ x ≠ ws := by
  unfold setDel
  rw [List.mem_filter]
  simp

theorem get?_addConnection_self (m : Registry) (u : UserId) (ws : ConnId) :
    AMap.get? (addConnection m u ws) u = some (setAdd (connsFor m u) ws) := by
  unfold addConnection
  by_cases h : AMap.hasKey m u = true
  · simp only [h, if_pos]
    rw [AMap.get?_set_self]
    rfl
  · simp only [h, Bool.false_eq_true, if_false]
    rw [AMap.get?_set_self]
    have hm : AMap.get? m u = none := by
      rw [AMap.hasKey_eq_isSome_get?] at h
      cases hg : AMap.get? m u with
      | none => rfl
      | some s => rw [hg] at h; simp at h
    rw [AMap.get?_set_self]
    simp [connsFor, hm]

theorem get?_addConnection_ne (m : Registry) (u x : UserId) (ws : ConnId)
    (h : x ≠ u) : AMap.get? (addConnection m u ws) x = AMap.get? m x := by
  unfold addConnection
  by_cases hk : AMap.hasKey m u = true
  · simp only [hk, if_pos]
    rw [AMap.get?_set_ne _ _ _ _ h]
  · simp only [hk, Bool.false_eq_true, if_false]
    rw [AMap.get?_set_ne _ _ _ _ h, AMap.get?_set_ne _ _ _ _ h]

theorem connsFor_addConnection_self (m : Registry) (u : UserId) (ws : ConnId) :
    connsFor (addConnection m u ws) u = setAdd (connsFor m u) ws := by
  unfold connsFor
  rw [get?_addConnection_self]
  rfl

theorem connsFor_addConnection_ne (m : Registry) (u x : UserId) (ws : ConnId)
    (h : x ≠ u) : connsFor (addConnection m u ws) x = connsFor m x := by
  unfold connsFor
  rw [get?_addConnection_ne _ _ _ _ h]

theorem get?_removeConnection_self (m : Registry) (u : UserId) (ws : ConnId) :
    AMap.get? (removeConnection m u ws) u =
      (if setDel (connsFor m u) ws = [] then none
       else some (setDel (connsFor m u) ws)) := by
  unfold removeConnection connsFor
  cases hg : AMap.get? m u with
  | none =>
    simp [hg, setDel]
  | some conns =>
    simp only [hg, Option.getD_some]
    by_cases hlen : (setDel conns ws).length = 0
    · have hnil : setDel conns ws = [] := List.length_eq_zero.mp hlen
      simp only [hlen, beq_self_eq_true, if_pos, hnil]
      simp [AMap.get?_erase_self]
    · have hlen' : ((setDel conns ws).length == 0) = false := by
        simp [hlen]
      have hne : ¬ setDel conns ws = [] := by
        intro hc
        rw [hc] at hlen
        simp at hlen
      simp only [hlen', Bool.false_eq_true, if_false, hne]
      rw [AMap.get?_set_self]

theorem get?_removeConnection_ne (m : Registry) (u x : UserId) (ws : ConnId)
    (h : x ≠ u) : AMap.get? (removeConnection m u ws) x = AMap.get? m x := by
  unfold removeConnection
  cases hg : AMap.get? m u with
  | none => rfl
  | some conns =>
    simp only
    by_cases hlen : ((setDel conns ws).length == 0) = true
    · rw [if_pos hlen]
      exact AMap.get?_erase_ne _ _ _ h
    · rw [if_neg hlen]
      exact AMap.get?_set_ne _ _ _ _ h

theorem connsFor_removeConnection_self (m : Registry) (u : UserId) (ws : ConnId) :
    connsFor (removeConnection m u ws) u = setDel (connsFor m u) ws := by
  conv_lhs => rw [connsFor]
  rw [get?_removeConnection_self]
  by_cases h : setDel (connsFor m u) ws = []
  · rw [if_pos h, h]
    rfl
  · rw [if_neg h]
    rfl

theorem connsFor_removeConnection_ne (m : Registry) (u x : UserId) (ws : ConnId)
    (h : x ≠ u) : connsFor (removeConnection m u ws) x = connsFor m x := by
  unfold connsFor
  rw [get?_removeConnection_ne _ _ _ _ h]

theorem regInvariant_nil : regInvariant [] := by
  intro u
  simp [AMap.hasKey, connsFor, AMap.get?]

theorem regInvariant_addConnection {m : Registry} (h : regInvariant m)
    (u : UserId) (ws : ConnId) : regInvariant (addConnection m u ws) := by
  intro x
  rw [AMap.hasKey_eq_isSome_get?]
  by_cases hx : x = u
  · subst hx
    rw [get?_addConnection_self, connsFor_addConnection_self]
    simp [setAdd_ne_nil]
  · rw [get?_addConnection_ne _ _ _ _ hx, connsFor_addConnection_ne _ _ _ _ hx]
    have h' := h x
    rw [AMap.hasKey_eq_isSome_get?] at h'
    exact h'

theorem regInvariant_removeConnection {m : Registry} (h : regInvariant m)
    (u : UserId) (ws : ConnId) : regInvariant (removeConnection m u ws) := by
  intro x
  rw [AMap.hasKey_eq_isSome_get?]
  by_cases hx : x = u
  · subst hx
    rw [get?_removeConnection_self, connsFor_removeConnection_self]
    by_cases hdel : setDel (connsFor m x) ws = []
    · rw [if_pos hdel, hdel]
      simp
    · rw [if_neg hdel]
      simp [hdel]
  · rw [get?_removeConnection_ne _ _ _ _ hx, connsFor_removeConnection_ne _ _ _ _ hx]
    have h' := h x
    rw [AMap.hasKey_eq_isSome_get?] at h'
    exact h'

theorem regSetsNodup_nil : regSetsNodup [] := by
  intro u l h
  simp [AMap.get?] at h

theorem regSetsNodup_addConnection {m : Registry} (h : regSetsNodup m)
    (u : UserId) (ws : ConnId) : regSetsNodup (addConnection m u ws) := by
  intro x l hx
  by_cases hxu : x = u
  · subst hxu
    rw [get?_addConnection_self] at hx
    cases hx
    apply setAdd_nodup _ ws
    unfold connsFor
    cases hg : AMap.get? m x with
    | none => simp [hg]
    | some s => simp only [hg, Option.getD_some]; exact h x s hg
  · rw [get?_addConnection_ne _ _ _ _ hxu] at hx
    exact h x l hx

theorem regSetsNodup_removeConnection {m : Registry} (h : regSetsNodup m)
    (u : UserId) (ws : ConnId) : regSetsNodup (removeConnection m u ws) := by
  intro x l hx
  by_cases hxu : x = u
  · subst hxu
    rw [get?_removeConnection_self] at hx
    by_cases hdel : setDel (connsFor m x) ws = []
    · rw [if_pos hdel] at hx
      cases hx
    · rw [if_neg hdel] at hx
      cases hx
      apply setDel_nodup _ ws
      unfold connsFor
      cases hg : AMap.get? m x with
      | none => simp [hg]
      | some s => simp only [hg, Option.getD_some]; exact h x s hg
  · rw [get?_removeConnection_ne _ _ _ _ hxu] at hx
    exact h x l hx

theorem length_setDel_of_nodup {t : List ConnId} {ws : ConnId}
    (hnodup : t.Nodup) (hmem : ws ∈ t) :
    (setDel t ws).length + 1 = t.length := by
  unfold setDel
  induction t with
  | nil => cases hmem
  | cons a t ih =>
    rcases List.mem_cons.mp hmem with ha | ha
    · subst ha
      have hws : (ws != ws) = false := by simp
      have hnotin : ws ∉ t := (List.nodup_cons.mp hnodup).1
      simp only [List.filter_cons, hws, Bool.false_eq_true, if_false, List.length_cons]
      congr 1
      rw [List.filter_length_eq_length.mpr]
      intro x hx
      have : x ≠ ws := fun hc => hnotin (hc ▸ hx)
      simp [this]
    · have hnodup' : t.Nodup := (List.nodup_cons.mp hnodup).2
      have hane : a ≠ ws := by
        intro hc
        exact (List.nodup_cons.mp hnodup).1 (hc ▸ ha)
      have ha' : (a != ws) = true := by simp [hane]
      simp only [List.filter_cons, ha', if_pos, List.length_cons]
      rw [Nat.add_right_comm]
      congr 1
      exact ih hnodup' ha

theorem removeConnection_setDel_length {m : Registry} {u : UserId} {ws : ConnId}
    (hnd : regSetsNodup m) (hmem : ws ∈ connsFor m u) :
    (connsFor (removeConnection m u ws) u).length + 1 = (connsFor m u).length := by
  rw [connsFor_removeConnection_self]
  have hnodup : (connsFor m u).Nodup := by
    unfold connsFor at *
    cases hg : AMap.get? m u with
    | none => simp [hg] at hmem
    | some s => simp only [hg, Option.getD_some]; exact hnd u s hg
  exact length_setDel_of_nodup hnodup hmem

theorem foldl_preserves {σ ε : Type} {P : σ → Prop} {f : σ → ε → σ}
    (hstep : ∀ s e, P s → P (f s e)) :
    ∀ (tr : List ε) (s : σ), P s → P (tr.foldl f s) := by
  intro tr
  induction tr with
  | nil => intro s hs; exact hs
  | cons e tr ih =>
    intro s hs
    exact ih _ (hstep s e hs)

namespace CallManager

theorem handleCallInitiate_userConnections (s : CState) (u : UserId) (m : CallMessage) :
    (handleCallInitiate s u m).userConnections = s.userConnections := by
  unfold handleCallInitiate
  repeat' split
  all_goals rfl

theorem handleCallAccept_userConnections (s : CState) (u : UserId) (m : CallMessage) :
    (handleCallAccept s u m).userConnections = s.userConnections := by
  unfold handleCallAccept
  repeat' split
  all_goals rfl

theorem handleCallReject_userConnections (s : CState) (u : UserId) (m : CallMessage) :
    (handleCallReject s u m).userConnections = s.userConnections := by
  unfold handleCallReject
  repeat' split
  all_goals rfl

theorem handleCallEnd_userConnections (s : CState) (u : UserId) (m : CallMessage) :
    (handleCallEnd s u m).userConnections = s.userConnections := by
  unfold handleCallEnd
  repeat' split
  all_goals rfl

theorem handleCallBusy_userConnections (s : CState) (u : UserId) (m : CallMessage) :
    (handleCallBusy s u m).userConnections = s.userConnections := by
  unfold handleCallBusy
  repeat' split
  all_goals rfl

theorem handleMessage_userConnections (s : CState) (u : UserId) (m : CallMessage) :
    (handleMessage s u m).userConnections = s.userConnections := by
  unfold handleMessage
  split
  · exact handleCallInitiate_userConnections s u m
  · exact handleCallAccept_userConnections s u m
  · exact handleCallReject_userConnections s u m
  · exact handleCallEnd_userConnections s u m
  · exact handleCallBusy_userConnections s u m
  · rfl

theorem CInv_cinit : CInv cinit := by
  refine ⟨regInvariant_nil, regSetsNodup_nil, List.nodup_nil, ?_⟩
  intro K c h
  simp [AMap.get?, cinit, List.find?] at h

theorem connsFor_addConnection_ne_nil {m : Registry} {v : UserId}
    (h : connsFor m v ≠ []) (u : UserId) (ws : ConnId) :
    connsFor (addConnection m u ws) v ≠ [] := by
  by_cases hv : v = u
  · subst hv
    rw [connsFor_addConnection_self]
    exact setAdd_ne_nil _ _
  · rwa [connsFor_addConnection_ne _ _ _ _ hv]

theorem involves_false_iff (u : UserId) (p : String × ActiveCall) :
    involves u p = false ↔ p.2.callerId ≠ u ∧ p.2.receiverId ≠ u := by
  unfold involves
  simp

theorem CInv_connect {s : CState} (h : CInv s) (u : UserId) (ws : ConnId) :
    CInv (cstep s (CEvent.connect u ws)) := by
  obtain ⟨h1, h2, h3, h4⟩ := h
  refine ⟨regInvariant_addConnection h1 u ws, regSetsNodup_addConnection h2 u ws, h3, ?_⟩
  intro K c hc
  obtain ⟨hcall, hrecv⟩ := h4 K c hc
  exact ⟨connsFor_addConnection_ne_nil hcall u ws,
         connsFor_addConnection_ne_nil hrecv u ws⟩

theorem get?_activeCalls_filter_not_involves {s : CState} (hnd : (AMap.keys s.activeCalls).Nodup)
    {u : UserId} {K : String} {c : ActiveCall}
    (h : AMap.get? (s.activeCalls.filter (fun p => !(involves u p))) K = some c) :
    AMap.get? s.activeCalls K = some c ∧ c.callerId ≠ u ∧ c.receiverId ≠ u := by
  have hmem := AMap.mem_of_get?_eq_some h
  rw [List.mem_filter] at hmem
  obtain ⟨hmem, hni⟩ := hmem
  have hninv : involves u (K, c) = false := by
    cases hi : involves u (K, c)
    · rfl
    · rw [hi] at hni; simp at hni
  rw [involves_false_iff] at hninv
  exact ⟨AMap.get?_eq_some_of_mem hnd hmem, hninv⟩

/-- After removing a connection of u and scanning away all of u's calls, the
master invariant still holds. -/
theorem CInv_disconnectCore {s : CState} (h : CInv s) (u : UserId) (ws : ConnId) :
    CInv (handleUserDisconnect
      { s with userConnections := removeConnection s.userConnections u ws } u) := by
  obtain ⟨h1, h2, h3, h4⟩ := h
  unfold handleUserDisconnect
  refine ⟨regInvariant_removeConnection h1 u ws, regSetsNodup_removeConnection h2 u ws,
    AMap.keys_nodup_filter _ h3, ?_⟩
  intro K c hc
  obtain ⟨hold, hcne, hrne⟩ := get?_activeCalls_filter_not_involves h3 hc
  obtain ⟨hcall, hrecv⟩ := h4 K c hold
  constructor
  · rwa [connsFor_removeConnection_ne _ _ _ _ hcne]
  · rwa [connsFor_removeConnection_ne _ _ _ _ hrne]

theorem CInv_handleCallInitiate {s : CState} (h : CInv s) {u : UserId}
    (hon : connsFor s.userConnections u ≠ []) (m : CallMessage) :
    CInv (handleCallInitiate s u m) := by
  obtain ⟨h1, h2, h3, h4⟩ := h
  unfold handleCallInitiate
  split
  · rename_i target callId ctype heq1 heq2 heq3
    split
    · exact ⟨h1, h2, h3, h4⟩
    · split
      · exact ⟨h1, h2, h3, h4⟩
      · rename_i receiverConnections hrecv
        split
        · exact ⟨h1, h2, h3, h4⟩
        · rename_i hlen
          have htarget : connsFor s.userConnections target ≠ [] := by
            unfold connsFor
            rw [hrecv]
            simp only [Option.getD_some]
            intro hc
            rw [hc] at hlen
            simp at hlen
          refine ⟨h1, h2, AMap.keys_nodup_set h3, ?_⟩
          intro K c hc
          by_cases hK : K = callId
          · subst hK
            rw [AMap.get?_set_self] at hc
            cases hc
            exact ⟨hon, htarget⟩
          · rw [AMap.get?_set_ne _ _ _ _ hK] at hc
            exact h4 K c hc
  · exact ⟨h1, h2, h3, h4⟩

theorem CInv_handleCallAccept {s : CState} (h : CInv s) (u : UserId) (m : CallMessage) :
    CInv (handleCallAccept s u m) := by
  obtain ⟨h1, h2, h3, h4⟩ := h
  unfold handleCallAccept
  split
  · exact ⟨h1, h2, h3, h4⟩
  · rename_i callId heq
    split
    · exact ⟨h1, h2, h3, h4⟩
    · split
      · exact ⟨h1, h2, h3, h4⟩
      · rename_i call hcall
        split
        · exact ⟨h1, h2, h3, h4⟩
        · refine ⟨h1, h2, AMap.keys_nodup_set h3, ?_⟩
          intro K c hc
          simp only at hc
          by_cases hK : K = callId
          · subst hK
            rw [AMap.get?_set_self] at hc
            cases hc
            exact h4 _ call hcall
          · rw [AMap.get?_set_ne _ _ _ _ hK] at hc
            exact h4 K c hc

theorem CInv_eraseCall {s : CState} (h : CInv s) (callId : String)
    (emits2 : List Notif) :
    CInv { s with activeCalls := AMap.erase s.activeCalls callId, emits := emits2 } := by
  obtain ⟨h1, h2, h3, h4⟩ := h
  refine ⟨h1, h2, AMap.keys_nodup_erase h3, ?_⟩
  intro K c hc
  by_cases hK : K = callId
  · subst hK
    rw [AMap.get?_erase_self] at hc
    cases hc
  · rw [AMap.get?_erase_ne _ _ _ hK] at hc
    exact h4 K c hc

theorem CInv_handleCallReject {s : CState} (h : CInv s) (u : UserId) (m : CallMessage) :
    CInv (handleCallReject s u m) := by
  unfold handleCallReject
  split
  · exact h
  · split
    · exact h
    · split
      · exact h
      · split
        · exact h
        · exact CInv_eraseCall h _ _

theorem CInv_handleCallEnd {s : CState} (h : CInv s) (u : UserId) (m : CallMessage) :
    CInv (handleCallEnd s u m) := by
  unfold handleCallEnd
  split
  · exact h
  · split
    · exact h
    · split
      · exact h
      · exact CInv_eraseCall h _ _

theorem CInv_handleCallBusy {s : CState} (h : CInv s) (u : UserId) (m : CallMessage) :
    CInv (handleCallBusy s u m) := by
  unfold handleCallBusy
  split
  · exact h
  · split
    · exact h
    · split
      · exact h
      · split
        · exact h
        · exact CInv_eraseCall h _ _

theorem cstep_connect_def (s : CState) (u : UserId) (ws : ConnId) :
    cstep s (CEvent.connect u ws) =
      { s with userConnections := addConnection s.userConnections u ws } := rfl

theorem cstep_close_def (s : CState) (u : UserId) (ws : ConnId) :
    cstep s (CEvent.close u ws) =
      if (connsFor s.userConnections u).contains ws then
        handleUserDisconnect
          { s with userConnections := removeConnection s.userConnections u ws } u
      else s := rfl

theorem cstep_reap_def (s : CState) (u : UserId) (ws : ConnId) :
    cstep s (CEvent.reap u ws) =
      if (connsFor s.userConnections u).contains ws then
        handleUserDisconnect
          { handleUserDisconnect
              { s with userConnections := removeConnection s.userConnections u ws } u with
            userConnections :=
              removeConnection
                (handleUserDisconnect
                  { s with userConnections := removeConnection s.userConnections u ws } u).userConnections
                u ws } u
      else s := rfl

theorem cstep_message_def (s : CState) (u : UserId) (m : CallMessage) :
    cstep s (CEvent.message u m) =
      if (connsFor s.userConnections u).isEmpty then s else handleMessage s u m := rfl

theorem CInv_disconnectCore2 {s : CState} (h : CInv s) (u : UserId) (ws : ConnId) :
    CInv (handleUserDisconnect
      { handleUserDisconnect
          { s with userConnections := removeConnection s.userConnections u ws } u with
        userConnections :=
          removeConnection
            (handleUserDisconnect
              { s with userConnections := removeConnection s.userConnections u ws } u).userConnections
            u ws } u) := by
  have h1 := CInv_disconnectCore h u ws
  have h2 := CInv_disconnectCore h1 u ws
  exact h2

theorem CInv_cstep {s : CState} (h : CInv s) (e : CEvent) : CInv (cstep s e) := by
  cases e with
  | connect u ws => exact CInv_connect h u ws
  | close u ws =>
    rw [cstep_close_def]
    split
    · exact CInv_disconnectCore h u ws
    · exact h
  | reap u ws =>
    rw [cstep_reap_def]
    split
    · exact CInv_disconnectCore2 h u ws
    · exact h
  | message u m =>
    rw [cstep_message_def]
    split
    · exact h
    · rename_i hne
      have hon : connsFor s.userConnections u ≠ [] := by
        intro hc
        rw [hc] at hne
        simp at hne
      unfold handleMessage
      split
      · exact CInv_handleCallInitiate h hon m
      · exact CInv_handleCallAccept h u m
      · exact CInv_handleCallReject h u m
      · exact CInv_handleCallEnd h u m
      · exact CInv_handleCallBusy h u m
      · exact h

theorem CInv_crun (tr : List CEvent) : CInv (crun tr) := by
  unfold crun
  exact @foldl_preserves CState CEvent CInv cstep (fun _ e hs => CInv_cstep hs e) tr cinit CInv_cinit

theorem handleUserDisconnect_emits (s : CState) (u : UserId) :
    (handleUserDisconnect s u).emits = s.emits ++ dcEmits s.userConnections u s.activeCalls := rfl

theorem handleUserDisconnect_activeCalls (s : CState) (u : UserId) :
    (handleUserDisconnect s u).activeCalls =
      s.activeCalls.filter (fun p => !(involves u p)) := rfl

theorem handleUserDisconnect_userConnections (s : CState) (u : UserId) :
    (handleUserDisconnect s u).userConnections = s.userConnections := rfl

theorem countNotif_append (a b : List Notif) (v : UserId) (msg : CallOutMsg) :
    countNotif (a ++ b) v msg = countNotif a v msg + countNotif b v msg :=
  List.countP_append _ a b

theorem countNotif_sendToUser_self {conns : Registry} {v : UserId} {cl : List ConnId}
    (h : AMap.get? conns v = some cl) (msg : CallOutMsg) :
    countNotif (sendToUser conns v msg) v msg = 1 := by
  unfold sendToUser
  rw [h]
  simp [countNotif, List.countP_cons]

theorem countNotif_sendToUser_ne_msg (conns : Registry) (x v : UserId)
    {m1 m2 : CallOutMsg} (h : m1 ≠ m2) :
    countNotif (sendToUser conns x m1) v m2 = 0 := by
  unfold sendToUser
  cases AMap.get? conns x with
  | none => rfl
  | some s => simp [countNotif, List.countP_cons, h]

theorem countNotif_dcEmits_zero (conns : Registry) (u : UserId)
    (l : List (String × ActiveCall)) (v : UserId) (K : String)
    (hK : K ∉ AMap.keys l) :
    countNotif (dcEmits conns u l) v (CallOutMsg.call_ended K) = 0 := by
  induction l with
  | nil => rfl
  | cons p t ih =>
    have hKp : p.1 ≠ K := by
      intro hc
      exact hK (by simp [AMap.keys, hc])
    have hKt : K ∉ AMap.keys t := by
      intro hc
      exact hK (by simp [AMap.keys] at hc ⊢; tauto)
    unfold dcEmits
    rw [List.filter_cons]
    by_cases hi : involves u p = true
    · rw [if_pos hi, List.map_cons, List.flatten_cons]
      rw [countNotif_append]
      have h0 : countNotif (sendToUser conns (otherParty u p.2) (CallOutMsg.call_ended p.1))
          v (CallOutMsg.call_ended K) = 0 := by
        apply countNotif_sendToUser_ne_msg
        intro hc
        cases hc
        exact hKp rfl
      rw [h0]
      simpa [dcEmits] using ih hKt
    · rw [if_neg hi]
      simpa [dcEmits] using ih hKt

theorem countNotif_dcEmits_one {conns : Registry} {u : UserId}
    {l : List (String × ActiveCall)} {K : String} {c : ActiveCall} {cl : List ConnId}
    (hnd : (AMap.keys l).Nodup) (hmem : (K, c) ∈ l) (hinv : involves u (K, c) = true)
    (hcl : AMap.get? conns (otherParty u c) = some cl) :
    countNotif (dcEmits conns u l) (otherParty u c) (CallOutMsg.call_ended K) = 1 := by
  induction l with
  | nil => cases hmem
  | cons p t ih =>
    have hnd1 : p.1 ∉ AMap.keys t := by
      simp only [AMap.keys, List.map_cons, List.nodup_cons] at hnd
      exact hnd.1
    have hnd2 : (AMap.keys t).Nodup := by
      simp only [AMap.keys, List.map_cons, List.nodup_cons] at hnd
      exact hnd.2
    rcases List.mem_cons.mp hmem with hh | hh
    · have hp : p = (K, c) := hh.symm
      subst hp
      unfold dcEmits
      rw [List.filter_cons, if_pos hinv, List.map_cons, List.flatten_cons, countNotif_append]
      have h1 := countNotif_sendToUser_self hcl (CallOutMsg.call_ended K)
      rw [h1]
      have h0 := countNotif_dcEmits_zero conns u t (otherParty u c) K hnd1
      unfold dcEmits at h0
      rw [h0]
    · have hKt : K ∈ AMap.keys t := by
        simp only [AMap.keys, List.mem_map]
        exact ⟨(K, c), hh, rfl⟩
      have hpK : p.1 ≠ K := fun hc => hnd1 (hc ▸ hKt)
      unfold dcEmits
      rw [List.filter_cons]
      by_cases hi : involves u p = true
      · rw [if_pos hi, List.map_cons, List.flatten_cons, countNotif_append]
        have h0 : countNotif (sendToUser conns (otherParty u p.2) (CallOutMsg.call_ended p.1))
            (otherParty u c) (CallOutMsg.call_ended K) = 0 := by
          apply countNotif_sendToUser_ne_msg
          intro hc
          cases hc
          exact hpK rfl
        rw [h0]
        simpa [dcEmits] using ih hnd2 hh
      · rw [if_neg hi]
        simpa [dcEmits] using ih hnd2 hh

theorem filter_involves_filter_not (u : UserId) (l : List (String × ActiveCall)) :
    (l.filter (fun p => !(involves u p))).filter (involves u) = [] := by
  rw [List.filter_filter]
  have : ∀ p ∈ l, (involves u p && !(involves u p)) = false := by
    intro p _
    cases involves u p <;> simp
  calc (l.filter fun a => involves u a && !(involves u a))
      = l.filter (fun _ => false) := List.filter_congr this
    _ = [] := List.filter_false l

theorem dcEmits_filter_not (conns : Registry) (u : UserId) (l : List (String × ActiveCall)) :
    dcEmits conns u (l.filter (fun p => !(involves u p))) = [] := by
  unfold dcEmits
  rw [filter_involves_filter_not]
  rfl

theorem get?_eq_some_of_connsFor_ne_nil {m : Registry} {u : UserId}
    (h : connsFor m u ≠ []) : AMap.get? m u = some (connsFor m u) := by
  unfold connsFor at *
  cases hg : AMap.get? m u with
  | none => rw [hg] at h; simp at h
  | some s => simp [hg]

theorem cstep_close_emits (s : CState) (u : UserId) (ws : ConnId)
    (hws : (connsFor s.userConnections u).contains ws = true) :
    (cstep s (CEvent.close u ws)).emits =
      s.emits ++ dcEmits (removeConnection s.userConnections u ws) u s.activeCalls := by
  rw [cstep_close_def, if_pos hws]
  rfl

theorem cstep_close_activeCalls (s : CState) (u : UserId) (ws : ConnId)
    (hws : (connsFor s.userConnections u).contains ws = true) :
    (cstep s (CEvent.close u ws)).activeCalls =
      s.activeCalls.filter (fun p => !(involves u p)) := by
  rw [cstep_close_def, if_pos hws]
  rfl

theorem cstep_close_userConnections (s : CState) (u : UserId) (ws : ConnId)
    (hws : (connsFor s.userConnections u).contains ws = true) :
    (cstep s (CEvent.close u ws)).userConnections =
      removeConnection s.userConnections u ws := by
  rw [cstep_close_def, if_pos hws]
  rfl

theorem cstep_reap_emits (s : CState) (u : UserId) (ws : ConnId)
    (hws : (connsFor s.userConnections u).contains ws = true) :
    (cstep s (CEvent.reap u ws)).emits =
      s.emits ++ dcEmits (removeConnection s.userConnections u ws) u s.activeCalls := by
  have h1 : (cstep s (CEvent.reap u ws)).emits =
      (s.emits ++ dcEmits (removeConnection s.userConnections u ws) u s.activeCalls) ++
        dcEmits
          (removeConnection (removeConnection s.userConnections u ws) u ws) u
          (s.activeCalls.filter (fun p => !(involves u p))) := by
    rw [cstep_reap_def, if_pos hws]
    rfl
  rw [h1, dcEmits_filter_not, List.append_nil]

theorem cstep_reap_activeCalls (s : CState) (u : UserId) (ws : ConnId)
    (hws : (connsFor s.userConnections u).contains ws = true) :
    (cstep s (CEvent.reap u ws)).activeCalls =
      (s.activeCalls.filter (fun p => !(involves u p))).filter (fun p => !(involves u p)) := by
  rw [cstep_reap_def, if_pos hws]
  rfl

theorem cstep_reap_userConnections (s : CState) (u : UserId) (ws : ConnId)
    (hws : (connsFor s.userConnections u).contains ws = true) :
    (cstep s (CEvent.reap u ws)).userConnections =
      removeConnection (removeConnection s.userConnections u ws) u ws := by
  rw [cstep_reap_def, if_pos hws]
  rfl

theorem connsFor_cstep_reap_self (s : CState) (u : UserId) (ws : ConnId)
    (hws : (connsFor s.userConnections u).contains ws = true) :
    connsFor (cstep s (CEvent.reap u ws)).userConnections u =
      connsFor (removeConnection s.userConnections u ws) u := by
  rw [cstep_reap_userConnections s u ws hws, connsFor_removeConnection_self,
    connsFor_removeConnection_self, setDel_setDel, ← connsFor_removeConnection_self]

theorem not_involves_of_get?_filter {l : List (String × ActiveCall)} {u : UserId}
    {K : String} {c : ActiveCall}
    (h : AMap.get? (l.filter (fun p => !(involves u p))) K = some c) :
    involves u (K, c) = false := by
  have hmem := AMap.mem_of_get?_eq_some h
  rw [List.mem_filter] at hmem
  cases hi : involves u (K, c)
  · rfl
  · rw [hi] at hmem
    simp at hmem

theorem otherParty_online {s : CState} (hinv : CInv s) (u : UserId) {K : String}
    {c : ActiveCall} (hc : AMap.get? s.activeCalls K = some c) :
    connsFor s.userConnections (otherParty u c) ≠ [] := by
  obtain ⟨_, _, _, h4⟩ := hinv
  obtain ⟨hcall, hrecv⟩ := h4 K c hc
  unfold otherParty
  cases hb : (c.callerId == u)
  · simpa [hb] using hcall
  · simpa [hb] using hrecv

/-- Core of the disconnect-cleanup property, for one close or reap step from
any state satisfying the master invariant. -/
theorem disconnect_cleanup_state {s : CState} (hinv : CInv s) (u : UserId) (ws : ConnId)
    (hws : (connsFor s.userConnections u).contains ws = true) (e : CEvent)
    (he : e = CEvent.close u ws ∨ e = CEvent.reap u ws) :
    (∀ K c, AMap.get? (cstep s e).activeCalls K = some c → involves u (K, c) = false) ∧
    (∀ K c, AMap.get? s.activeCalls K = some c → involves u (K, c) = true →
      otherParty u c ≠ u →
      countNotif ((cstep s e).emits.drop s.emits.length) (otherParty u c)
        (CallOutMsg.call_ended K) = 1) := by
  have h3 : (AMap.keys s.activeCalls).Nodup := hinv.2.2.1
  have hemits : (cstep s e).emits =
      s.emits ++ dcEmits (removeConnection s.userConnections u ws) u s.activeCalls := by
    rcases he with he | he <;> subst he
    · exact cstep_close_emits s u ws hws
    · exact cstep_reap_emits s u ws hws
  constructor
  · rcases he with he | he <;> subst he
    · intro K c hc
      rw [cstep_close_activeCalls s u ws hws] at hc
      exact not_involves_of_get?_filter hc
    · intro K c hc
      rw [cstep_reap_activeCalls s u ws hws] at hc
      exact not_involves_of_get?_filter hc
  · intro K c hc hi hne
    rw [hemits, List.drop_left]
    have hon : connsFor s.userConnections (otherParty u c) ≠ [] :=
      otherParty_online hinv u hc
    have hon2 : connsFor (removeConnection s.userConnections u ws) (otherParty u c) ≠ [] := by
      rwa [connsFor_removeConnection_ne _ _ _ _ hne]
    exact countNotif_dcEmits_one h3 (AMap.mem_of_get?_eq_some hc) hi
      (get?_eq_some_of_connsFor_ne_nil hon2)

theorem sendToUser_of_online {conns : Registry} {v : UserId}
    (h : connsFor conns v ≠ []) (msg : CallOutMsg) :
    sendToUser conns v msg = [{ target := v, targetConns := connsFor conns v, msg := msg }] := by
  unfold sendToUser
  rw [get?_eq_some_of_connsFor_ne_nil h]

theorem isEmpty_false_of_ne_nil {l : List ConnId} (h : l ≠ []) : l.isEmpty = false := by
  cases hl : l.isEmpty
  · rfl
  · exact absurd (List.isEmpty_iff.mp hl) h

theorem cstep_message_of_online {s : CState} {u : UserId}
    (h : connsFor s.userConnections u ≠ []) (m : CallMessage) :
    cstep s (CEvent.message u m) = handleMessage s u m := by
  rw [cstep_message_def, if_neg]
  rw [isEmpty_false_of_ne_nil h]
  simp

theorem handleCallInitiate_offline {s : CState} {callerId : UserId} {K T : String}
    {ct : CallType} {nm ph : Option String}
    (hK : (K == "") = false) (hT : (T == "") = false)
    (hoff : connsFor s.userConnections T = []) :
    handleCallInitiate s callerId
      { type := CMsgType.call_initiate, callId := some K, callType := some ct,
        targetUserId := some T, callerName := nm, callerPhoto := ph } =
    { s with emits := s.emits ++
        sendToUser s.userConnections callerId (CallOutMsg.user_offline K) } := by
  unfold handleCallInitiate
  simp only [hT, hK, Bool.or_self, Bool.false_eq_true, if_false]
  cases hg : AMap.get? s.userConnections T with
  | none => rfl
  | some rc =>
    have hrc : rc = [] := by
      unfold connsFor at hoff
      rw [hg] at hoff
      simpa using hoff
    subst hrc
    rfl

theorem handleCallInitiate_online {s : CState} {callerId : UserId} {K T : String}
    {ct : CallType} {nm ph : Option String}
    (hK : (K == "") = false) (hT : (T == "") = false)
    (hon : connsFor s.userConnections T ≠ []) :
    handleCallInitiate s callerId
      { type := CMsgType.call_initiate, callId := some K, callType := some ct,
        targetUserId := some T, callerName := nm, callerPhoto := ph } =
    { s with
      activeCalls := AMap.set s.activeCalls K
        { callId := K, callType := ct, callerId := callerId,
          receiverId := T, status := CallStatus.ringing },
      emits := s.emits ++
        sendToUser s.userConnections T
          (CallOutMsg.incoming_call K ct callerId nm ph) } := by
  unfold handleCallInitiate
  simp only [hT, hK, Bool.or_self, Bool.false_eq_true, if_false]
  rw [get?_eq_some_of_connsFor_ne_nil hon]
  simp only
  have hlen : ((connsFor s.userConnections T).length == 0) = false := by
    have : (connsFor s.userConnections T).length ≠ 0 := by
      intro hc
      exact hon (List.length_eq_zero.mp hc)
    simp [this]
  rw [hlen]
  simp

theorem handleCallAccept_effect {s : CState} {senderId : UserId} {K : String}
    {c : ActiveCall} (hK : (K == "") = false)
    (hc : AMap.get? s.activeCalls K = some c) (hr : c.receiverId = senderId) :
    handleCallAccept s senderId { type := CMsgType.call_accept, callId := some K } =
    { s with
      activeCalls := AMap.set s.activeCalls K { c with status := CallStatus.connected },
      emits := s.emits ++
        sendToUser s.userConnections c.callerId (CallOutMsg.call_accepted K) } := by
  unfold handleCallAccept
  simp only [hK, Bool.false_eq_true, if_false, hc]
  have : (c.receiverId != senderId) = false := by simp [hr]
  rw [this]
  simp

theorem handleCallAccept_unknown {s : CState} {senderId : UserId} {K : String}
    (hK : (K == "") = false) (hc : AMap.get? s.activeCalls K = none) :
    handleCallAccept s senderId { type := CMsgType.call_accept, callId := some K } = s := by
  unfold handleCallAccept
  simp only [hK, Bool.false_eq_true, if_false, hc]

theorem handleCallAccept_wrong_receiver {s : CState} {senderId : UserId} {K : String}
    {c : ActiveCall} (hK : (K == "") = false)
    (hc : AMap.get? s.activeCalls K = some c) (hr : c.receiverId ≠ senderId) :
    handleCallAccept s senderId { type := CMsgType.call_accept, callId := some K } = s := by
  unfold handleCallAccept
  simp only [hK, Bool.false_eq_true, if_false, hc]
  have : (c.receiverId != senderId) = true := by simp [hr]
  rw [this]
  simp

theorem handleCallEnd_effect {s : CState} {senderId : UserId} {K : String}
    {c : ActiveCall} (hK : (K == "") = false)
    (hc : AMap.get? s.activeCalls K = some c) :
    handleCallEnd s senderId { type := CMsgType.call_end, callId := some K } =
    { s with
      activeCalls := AMap.erase s.activeCalls K,
      emits := s.emits ++
        sendToUser s.userConnections
          (if c.callerId == senderId then c.receiverId else c.callerId)
          (CallOutMsg.call_ended K) } := by
  unfold handleCallEnd
  simp only [hK, Bool.false_eq_true, if_false, hc]

theorem handleCallEnd_unknown {s : CState} {senderId : UserId} {K : String}
    (hK : (K == "") = false) (hc : AMap.get? s.activeCalls K = none) :
    handleCallEnd s senderId { type := CMsgType.call_end, callId := some K } = s := by
  unfold handleCallEnd
  simp only [hK, Bool.false_eq_true, if_false, hc]

theorem cstep_message_of_offline {s : CState} {u : UserId}
    (h : connsFor s.userConnections u = []) (m : CallMessage) :
    cstep s (CEvent.message u m) = s := by
  rw [cstep_message_def, if_pos]
  rw [h]
  rfl

/-- C5: Initiate postcondition.  For a well-formed call_initiate from an
online caller with fresh callId K: if the target has no open connection the
caller alone receives user_offline carrying K and no Call record is created;
otherwise a ringing Call record for K is created and one incoming_call
notification carrying K, the call type and the caller identity goes out over
every connection the target has open. -/
theorem c5_initiate_postcondition :
    ∀ (s : CState) (callerId : UserId) (K T : String) (ct : CallType) (nm ph : Option String),
      connsFor s.userConnections callerId ≠ [] →
      K ≠ "" → T ≠ "" →
      AMap.get? s.activeCalls K = none →
      ((connsFor s.userConnections T = [] →
        cstep s (CEvent.message callerId
          { type := CMsgType.call_initiate, callId := some K, callType := some ct,
            targetUserId := some T, callerName := nm, callerPhoto := ph }) =
          { s with emits := s.emits ++
              [{ target := callerId, targetConns := connsFor s.userConnections callerId,
                 msg := CallOutMsg.user_offline K }] }) ∧
       (connsFor s.userConnections T ≠ [] →
        cstep s (CEvent.message callerId
          { type := CMsgType.call_initiate, callId := some K, callType := some ct,
            targetUserId := some T, callerName := nm, callerPhoto := ph }) =
          { s with
            activeCalls := AMap.set s.activeCalls K
              { callId := K, callType := ct, callerId := callerId,
                receiverId := T, status := CallStatus.ringing },
            emits := s.emits ++
              [{ target := T, targetConns := connsFor s.userConnections T,
                 msg := CallOutMsg.incoming_call K ct callerId nm ph }] })) := by
  intro s callerId K T ct nm ph hcaller hK hT _hfresh
  have hKb : (K == "") = false := by simp [hK]
  have hTb : (T == "") = false := by simp [hT]
  have hred : handleMessage s callerId
      { type := CMsgType.call_initiate, callId := some K, callType := some ct,
        targetUserId := some T, callerName := nm, callerPhoto := ph } =
      handleCallInitiate s callerId
        { type := CMsgType.call_initiate, callId := some K, callType := some ct,
          targetUserId := some T, callerName := nm, callerPhoto := ph } := rfl
  constructor
  · intro hoff
    rw [cstep_message_of_online hcaller, hred,
      handleCallInitiate_offline hKb hTb hoff, sendToUser_of_online hcaller]
  · intro hon
    rw [cstep_message_of_online hcaller, hred,
      handleCallInitiate_online hKb hTb hon, sendToUser_of_online hon]

theorem c5_witness :
    (cstep (crun c5_offline_trace) (CEvent.message "a"
      { type := CMsgType.call_initiate, callId := some "c1", callType := some CallType.voice,
        targetUserId := some "b", callerName := none, callerPhoto := none }) =
      { crun c5_offline_trace with emits := (crun c5_offline_trace).emits ++
          [{ target := "a", targetConns := connsFor (crun c5_offline_trace).userConnections "a",
             msg := CallOutMsg.user_offline "c1" }] }) ∧
    (cstep (crun c5_online_trace) (CEvent.message "a"
      { type := CMsgType.call_initiate, callId := some "c1", callType := some CallType.voice,
        targetUserId := some "b", callerName := none, callerPhoto := none }) =
      { crun c5_online_trace with
        activeCalls := AMap.set (crun c5_online_trace).activeCalls "c1"
          { callId := "c1", callType := CallType.voice, callerId := "a",
            receiverId := "b", status := CallStatus.ringing },
        emits := (crun c5_online_trace).emits ++
          [{ target := "b", targetConns := connsFor (crun c5_online_trace).userConnections "b",
             msg := CallOutMsg.incoming_call "c1" CallType.voice "a" none none }] }) := by
  constructor
  · exact (c5_initiate_postcondition (crun c5_offline_trace) "a" "c1" "b" CallType.voice
      none none (by decide) (by decide) (by decide) (by decide)).1 (by decide)
  · exact (c5_initiate_postcondition (crun c5_online_trace) "a" "c1" "b" CallType.voice
      none none (by decide) (by decide) (by decide) (by decide)).2 (by decide)

/-- C6 (amended): a call_accept for callId K has effect exactly when K is a
live call and the sender is its receiver, REGARDLESS of the call status (the
handler checks only existence and receiver identity, so a repeated accept of
an already connected call re-notifies the caller); any other sender or an
unknown K is silently ignored with no state change and no notification. -/
theorem c6_accept_contract :
    ∀ (tr : List CEvent) (senderId : UserId) (K : String), K ≠ "" →
      (∀ c, AMap.get? (crun tr).activeCalls K = some c → c.receiverId = senderId →
        cstep (crun tr) (CEvent.message senderId
          { type := CMsgType.call_accept, callId := some K }) =
        { crun tr with
          activeCalls := AMap.set (crun tr).activeCalls K { c with status := CallStatus.connected },
          emits := (crun tr).emits ++
            [{ target := c.callerId,
               targetConns := connsFor (crun tr).userConnections c.callerId,
               msg := CallOutMsg.call_accepted K }] }) ∧
      (∀ c, AMap.get? (crun tr).activeCalls K = some c → c.receiverId ≠ senderId →
        cstep (crun tr) (CEvent.message senderId
          { type := CMsgType.call_accept, callId := some K }) = crun tr) ∧
      (AMap.get? (crun tr).activeCalls K = none →
        cstep (crun tr) (CEvent.message senderId
          { type := CMsgType.call_accept, callId := some K }) = crun tr) := by
  intro tr senderId K hK
  have hKb : (K == "") = false := by simp [hK]
  have hinv := CInv_crun tr
  have hred : handleMessage (crun tr) senderId
      { type := CMsgType.call_accept, callId := some K } =
      handleCallAccept (crun tr) senderId
        { type := CMsgType.call_accept, callId := some K } := rfl
  refine ⟨?_, ?_, ?_⟩
  · intro c hc hr
    have hrecv : connsFor (crun tr).userConnections c.receiverId ≠ [] :=
      (hinv.2.2.2 K c hc).2
    have hcall : connsFor (crun tr).userConnections c.callerId ≠ [] :=
      (hinv.2.2.2 K c hc).1
    have hsender : connsFor (crun tr).userConnections senderId ≠ [] := hr ▸ hrecv
    rw [cstep_message_of_online hsender, hred,
      handleCallAccept_effect hKb hc hr, sendToUser_of_online hcall]
  · intro c hc hr
    by_cases hs : connsFor (crun tr).userConnections senderId = []
    · exact cstep_message_of_offline hs _
    · rw [cstep_message_of_online hs, hred]
      exact handleCallAccept_wrong_receiver hKb hc hr
  · intro hc
    by_cases hs : connsFor (crun tr).userConnections senderId = []
    · exact cstep_message_of_offline hs _
    · rw [cstep_message_of_online hs, hred]
      exact handleCallAccept_unknown hKb hc

/-- C6 counterexample: after the receiver accepted once, the call c1 is
already in the connected state; the claim says an accept in any state other
than ringing is silently ignored with no notification, but a second accept
from the receiver emits another call_accepted notification to the caller. -/
theorem c6_counterexample :
    (AMap.get? (crun c6_trace).activeCalls "c1").map ActiveCall.status =
      some CallStatus.connected ∧
    (cstep (crun c6_trace) (CEvent.message "b"
      { type := CMsgType.call_accept, callId := some "c1" })).emits =
      (crun c6_trace).emits ++
        [{ target := "a", targetConns := [1], msg := CallOutMsg.call_accepted "c1" }] := by
  decide

theorem c6_witness :
    (cstep (crun c6_trace) (CEvent.message "b"
      { type := CMsgType.call_accept, callId := some "c1" }) =
      { crun c6_trace with
        activeCalls := AMap.set (crun c6_trace).activeCalls "c1"
          { callId := "c1", callType := CallType.voice, callerId := "a",
            receiverId := "b", status := CallStatus.connected },
        emits := (crun c6_trace).emits ++
          [{ target := "a", targetConns := connsFor (crun c6_trace).userConnections "a",
             msg := CallOutMsg.call_accepted "c1" }] }) ∧
    (cstep (crun c6_trace) (CEvent.message "x"
      { type := CMsgType.call_accept, callId := some "c1" }) = crun c6_trace) ∧
    (cstep (crun c6_trace) (CEvent.message "b"
      { type := CMsgType.call_accept, callId := some "zz" }) = crun c6_trace) := by
  refine ⟨?_, ?_, ?_⟩
  · exact (c6_accept_contract c6_trace "b" "c1" (by decide)).1
      { callId := "c1", callType := CallType.voice, callerId := "a",
        receiverId := "b", status := CallStatus.connected } (by decide) (by decide)
  · exact (c6_accept_contract c6_trace "x" "c1" (by decide)).2.1
      { callId := "c1", callType := CallType.voice, callerId := "a",
        receiverId := "b", status := CallStatus.connected } (by decide) (by decide)
  · exact (c6_accept_contract c6_trace "b" "zz" (by decide)).2.2 (by decide)

/-- C7 (amended): a call_end for a live callId K from ANY authenticated
online sender, party or not, removes the Call and sends exactly one
call_ended notification: to the receiver when the sender is the caller,
otherwise to the caller (so a third party's call_end tears the call down and
notifies its caller); a call_end for an unknown K is a no-op. -/
theorem c7_end_behavior :
    ∀ (tr : List CEvent) (senderId : UserId) (K : String), K ≠ "" →
      connsFor (crun tr).userConnections senderId ≠ [] →
      (∀ c, AMap.get? (crun tr).activeCalls K = some c →
        cstep (crun tr) (CEvent.message senderId
          { type := CMsgType.call_end, callId := some K }) =
        { crun tr with
          activeCalls := AMap.erase (crun tr).activeCalls K,
          emits := (crun tr).emits ++
            [{ target := otherParty senderId c,
               targetConns := connsFor (crun tr).userConnections (otherParty senderId c),
               msg := CallOutMsg.call_ended K }] }) ∧
      (AMap.get? (crun tr).activeCalls K = none →
        cstep (crun tr) (CEvent.message senderId
          { type := CMsgType.call_end, callId := some K }) = crun tr) := by
  intro tr senderId K hK hsender
  have hKb : (K == "") = false := by simp [hK]
  have hinv := CInv_crun tr
  have hred : handleMessage (crun tr) senderId
      { type := CMsgType.call_end, callId := some K } =
      handleCallEnd (crun tr) senderId
        { type := CMsgType.call_end, callId := some K } := rfl
  constructor
  · intro c hc
    have hother : connsFor (crun tr).userConnections (otherParty senderId c) ≠ [] :=
      otherParty_online hinv senderId hc
    rw [cstep_message_of_online hsender, hred, handleCallEnd_effect hKb hc]
    have hop : (if c.callerId == senderId then c.receiverId else c.callerId) =
        otherParty senderId c := rfl
    rw [hop, sendToUser_of_online hother]
  · intro hc
    rw [cstep_message_of_online hsender, hred]
    exact handleCallEnd_unknown hKb hc

/-- C7 counterexample: user x is neither party of the live call c1 between a
and b, yet a call_end for c1 sent by x removes the Call and sends the caller
a a call_ended notification; the claim says such a call_end leaves the Call
unchanged and sends nothing. -/
theorem c7_counterexample :
    AMap.get? (crun c7_trace).activeCalls "c1" =
      some { callId := "c1", callType := CallType.voice, callerId := "a",
             receiverId := "b", status := CallStatus.ringing } ∧
    (cstep (crun c7_trace) (CEvent.message "x"
      { type := CMsgType.call_end, callId := some "c1" })).activeCalls = [] ∧
    (cstep (crun c7_trace) (CEvent.message "x"
      { type := CMsgType.call_end, callId := some "c1" })).emits =
      (crun c7_trace).emits ++
        [{ target := "a", targetConns := [1], msg := CallOutMsg.call_ended "c1" }] := by
  decide

theorem c7_witness :
    (cstep (crun c7_trace) (CEvent.message "x"
      { type := CMsgType.call_end, callId := some "c1" }) =
      { crun c7_trace with
        activeCalls := AMap.erase (crun c7_trace).activeCalls "c1",
        emits := (crun c7_trace).emits ++
          [{ target := otherParty "x"
               { callId := "c1", callType := CallType.voice, callerId := "a",
                 receiverId := "b", status := CallStatus.ringing },
             targetConns := connsFor (crun c7_trace).userConnections
               (otherParty "x"
                 { callId := "c1", callType := CallType.voice, callerId := "a",
                   receiverId := "b", status := CallStatus.ringing }),
             msg := CallOutMsg.call_ended "c1" }] }) ∧
    (cstep (crun c7_trace) (CEvent.message "b"
      { type := CMsgType.call_end, callId := some "zz" }) = crun c7_trace) := by
  constructor
  · exact (c7_end_behavior c7_trace "x" "c1" (by decide) (by decide)).1
      { callId := "c1", callType := CallType.voice, callerId := "a",
        receiverId := "b", status := CallStatus.ringing } (by decide)
  · exact (c7_end_behavior c7_trace "b" "zz" (by decide) (by decide)).2 (by decide)

/-- C2 (amended): when a registered call-signaling connection of user u
closes (client close or failed liveness probe), every live Call involving u
is removed from the active-call map, and for each such Call whose other
party is a user different from u exactly one call_ended notification is sent
to that party (a self-call whose sole participant disconnects is removed
silently, since its other party is u and has just gone offline); moreover in
every reachable state no live Call has both parties without connections (in
fact both parties of every live Call are online). -/
theorem c2_disconnect_cleanup :
    (∀ (tr : List CEvent) (u : UserId) (ws : ConnId) (e : CEvent),
      (connsFor (crun tr).userConnections u).contains ws = true →
      (e = CEvent.close u ws ∨ e = CEvent.reap u ws) →
      (∀ K c, AMap.get? (cstep (crun tr) e).activeCalls K = some c →
        involves u (K, c) = false) ∧
      (∀ K c, AMap.get? (crun tr).activeCalls K = some c → involves u (K, c) = true →
        otherParty u c ≠ u →
        countNotif ((cstep (crun tr) e).emits.drop (crun tr).emits.length)
          (otherParty u c) (CallOutMsg.call_ended K) = 1)) ∧
    (∀ (tr : List CEvent) (K : String) (c : ActiveCall),
      AMap.get? (crun tr).activeCalls K = some c →
      connsFor (crun tr).userConnections c.callerId ≠ [] ∨
      connsFor (crun tr).userConnections c.receiverId ≠ []) := by
  constructor
  · intro tr u ws e hws he
    exact disconnect_cleanup_state (CInv_crun tr) u ws hws e he
  · intro tr K c hc
    exact Or.inl ((CInv_crun tr).2.2.2 K c hc).1

theorem c2_witness :
    ((∀ K c, AMap.get? (cstep (crun c2_trace) (CEvent.close "b" 2)).activeCalls K = some c →
      involves "b" (K, c) = false) ∧
     countNotif ((cstep (crun c2_trace) (CEvent.close "b" 2)).emits.drop
         (crun c2_trace).emits.length)
       (otherParty "b"
         { callId := "c1", callType := CallType.voice, callerId := "a",
           receiverId := "b", status := CallStatus.ringing })
       (CallOutMsg.call_ended "c1") = 1) ∧
    (connsFor (crun c2_trace).userConnections "a" ≠ [] ∨
     connsFor (crun c2_trace).userConnections "b" ≠ []) := by
  constructor
  · constructor
    · exact (c2_disconnect_cleanup.1 c2_trace "b" 2 (CEvent.close "b" 2)
        (by decide) (Or.inl rfl)).1
    · exact (c2_disconnect_cleanup.1 c2_trace "b" 2 (CEvent.close "b" 2)
        (by decide) (Or.inl rfl)).2 "c1"
        { callId := "c1", callType := CallType.voice, callerId := "a",
          receiverId := "b", status := CallStatus.ringing }
        (by decide) (by decide) (by decide)
  · exact c2_disconnect_cleanup.2 c2_trace "c1"
      { callId := "c1", callType := CallType.voice, callerId := "a",
        receiverId := "b", status := CallStatus.ringing } (by decide)

/-- C2 counterexample: a self-call (caller = receiver = a) is live and a's
only connection closes; the Call is removed but NO call_ended notification
is emitted at all, refuting the claim that the other party always receives
exactly one call_ended notification per removed Call. -/
theorem c2_counterexample :
    AMap.get? (crun c2_self_trace).activeCalls "c1" =
      some { callId := "c1", callType := CallType.voice, callerId := "a",
             receiverId := "a", status := CallStatus.ringing } ∧
    (cstep (crun c2_self_trace) (CEvent.close "a" 1)).activeCalls = [] ∧
    (cstep (crun c2_self_trace) (CEvent.close "a" 1)).emits =
      (crun c2_self_trace).emits := by
  decide

/-- C10: call cleanup is per-connection, not per-user.  When a user u with
at least two open call-signaling connections loses any single one of them,
whether by a client close or by a failed liveness probe (heartbeat reap),
every live Call involving u is removed, each such Call produces exactly one
call_ended notification to its other party, and u still has an open
connection afterwards. -/
theorem c10_per_connection_cleanup :
    ∀ (tr : List CEvent) (u : UserId) (ws : ConnId) (e : CEvent),
      ws ∈ connsFor (crun tr).userConnections u →
      2 ≤ (connsFor (crun tr).userConnections u).length →
      (e = CEvent.close u ws ∨ e = CEvent.reap u ws) →
      connsFor (cstep (crun tr) e).userConnections u ≠ [] ∧
      (∀ K c, AMap.get? (cstep (crun tr) e).activeCalls K = some c →
        involves u (K, c) = false) ∧
      (∀ K c, AMap.get? (crun tr).activeCalls K = some c → involves u (K, c) = true →
        countNotif ((cstep (crun tr) e).emits.drop (crun tr).emits.length)
          (otherParty u c) (CallOutMsg.call_ended K) = 1) := by
  intro tr u ws e hmem hlen he
  have hinv := CInv_crun tr
  have hws : (connsFor (crun tr).userConnections u).contains ws = true := by
    simpa using hmem
  have h1 := removeConnection_setDel_length hinv.2.1 hmem
  have hne1 : connsFor (removeConnection (crun tr).userConnections u ws) u ≠ [] := by
    intro hc
    rw [hc] at h1
    simp at h1
    omega
  have hconns : connsFor (cstep (crun tr) e).userConnections u =
      connsFor (removeConnection (crun tr).userConnections u ws) u := by
    rcases he with he | he <;> subst he
    · rw [cstep_close_userConnections _ _ _ hws]
    · exact connsFor_cstep_reap_self _ u ws hws
  have hemits : (cstep (crun tr) e).emits = (crun tr).emits ++
      dcEmits (removeConnection (crun tr).userConnections u ws) u (crun tr).activeCalls := by
    rcases he with he | he <;> subst he
    · exact cstep_close_emits _ u ws hws
    · exact cstep_reap_emits _ u ws hws
  refine ⟨by rw [hconns]; exact hne1, ?_, ?_⟩
  · rcases he with he | he <;> subst he
    · intro K c hc
      rw [cstep_close_activeCalls _ _ _ hws] at hc
      exact not_involves_of_get?_filter hc
    · intro K c hc
      rw [cstep_reap_activeCalls _ _ _ hws] at hc
      exact not_involves_of_get?_filter hc
  · intro K c hc hi
    rw [hemits, List.drop_left]
    have hon2 : connsFor (removeConnection (crun tr).userConnections u ws)
        (otherParty u c) ≠ [] := by
      by_cases hne : otherParty u c = u
      · rw [hne]
        exact hne1
      · rw [connsFor_removeConnection_ne _ _ _ _ hne]
        exact otherParty_online hinv u hc
    exact countNotif_dcEmits_one hinv.2.2.1 (AMap.mem_of_get?_eq_some hc) hi
      (get?_eq_some_of_connsFor_ne_nil hon2)

theorem c10_witness :
    (connsFor (cstep (crun c10_trace) (CEvent.close "a" 1)).userConnections "a" ≠ [] ∧
     (∀ K c, AMap.get? (cstep (crun c10_trace) (CEvent.close "a" 1)).activeCalls K = some c →
       involves "a" (K, c) = false) ∧
     countNotif ((cstep (crun c10_trace) (CEvent.close "a" 1)).emits.drop
         (crun c10_trace).emits.length)
       (otherParty "a"
         { callId := "c1", callType := CallType.voice, callerId := "a",
           receiverId := "b", status := CallStatus.ringing })
       (CallOutMsg.call_ended "c1") = 1) ∧
    (connsFor (cstep (crun c10_trace) (CEvent.reap "a" 1)).userConnections "a" ≠ [] ∧
     (∀ K c, AMap.get? (cstep (crun c10_trace) (CEvent.reap "a" 1)).activeCalls K = some c →
       involves "a" (K, c) = false) ∧
     countNotif ((cstep (crun c10_trace) (CEvent.reap "a" 1)).emits.drop
         (crun c10_trace).emits.length)
       (otherParty "a"
         { callId := "c1", callType := CallType.voice, callerId := "a",
           receiverId := "b", status := CallStatus.ringing })
       (CallOutMsg.call_ended "c1") = 1) := by
  constructor
  · have h := c10_per_connection_cleanup c10_trace "a" 1 (CEvent.close "a" 1)
      (by decide) (by decide) (Or.inl rfl)
    exact ⟨h.1, h.2.1, h.2.2 "c1"
      { callId := "c1", callType := CallType.voice, callerId := "a",
        receiverId := "b", status := CallStatus.ringing } (by decide) (by decide)⟩
  · have h := c10_per_connection_cleanup c10_trace "a" 1 (CEvent.reap "a" 1)
      (by decide) (by decide) (Or.inr rfl)
    exact ⟨h.1, h.2.1, h.2.2 "c1"
      { callId := "c1", callType := CallType.voice, callerId := "a",
        receiverId := "b", status := CallStatus.ringing } (by decide) (by decide)⟩

end CallManager

namespace PresenceManager

theorem isUserOnline_eq_false_iff (s : PState) (u : UserId) :
    isUserOnline s u = false ↔ connsFor s.userConnections u = [] := by
  unfold isUserOnline
  rw [AMap.hasKey_eq_isSome_get?]
  unfold connsFor
  cases hg : AMap.get? s.userConnections u with
  | none => simp
  | some l =>
    simp only [Option.isSome_some, Bool.true_and, Option.getD_some]
    constructor
    · intro h
      have : ¬ 0 < l.length := by simpa using h
      have hlen : l.length = 0 := by omega
      exact List.length_eq_zero.mp hlen
    · intro h
      subst h
      simp

theorem zeroCheck_true_iff (m : Registry) (u : UserId) :
    (!(AMap.hasKey m u) || ((connsFor m u).length == 0)) = true ↔ connsFor m u = [] := by
  rw [AMap.hasKey_eq_isSome_get?]
  unfold connsFor
  cases hg : AMap.get? m u with
  | none => simp
  | some l =>
    simp only [Option.isSome_some, Bool.not_true, Bool.false_or, Option.getD_some]
    rw [beq_iff_eq]
    exact ⟨fun h => List.length_eq_zero.mp h, fun h => by rw [h]; rfl⟩

theorem zeroCheck_false_iff (m : Registry) (u : UserId) :
    (!(AMap.hasKey m u) || ((connsFor m u).length == 0)) = false ↔ connsFor m u ≠ [] := by
  constructor
  · intro h hc
    rw [(zeroCheck_true_iff m u).mpr hc] at h
    cases h
  · intro h
    cases hz : (!(AMap.hasKey m u) || ((connsFor m u).length == 0))
    · rfl
    · exact absurd ((zeroCheck_true_iff m u).mp hz) h

theorem setUserOnline_userConnections (s : PState) (u : UserId) (b pok : Bool) :
    (setUserOnline s u b pok).userConnections = s.userConnections := by
  cases pok <;> simp only [setUserOnline, broadcastUserStatus] <;> split <;> rfl

theorem setUserOnline_offlineTimeouts (s : PState) (u : UserId) (b pok : Bool) :
    (setUserOnline s u b pok).offlineTimeouts = s.offlineTimeouts := by
  cases pok <;> simp only [setUserOnline, broadcastUserStatus] <;> split <;> rfl

theorem setUserOnline_true_emits (s : PState) (u : UserId) (pok : Bool) :
    (setUserOnline s u true pok).emits = s.emits ++ [PEmit.status u true] := by
  unfold setUserOnline broadcastUserStatus
  simp only [Bool.not_true, Bool.false_and, Bool.false_eq_true, if_false]
  cases pok <;> rfl

theorem setUserOnline_false_emits {s : PState} {u : UserId}
    (h : connsFor s.userConnections u = []) (pok : Bool) :
    (setUserOnline s u false pok).emits = s.emits ++ [PEmit.status u false] := by
  unfold setUserOnline broadcastUserStatus
  have hoff : isUserOnline s u = false := (isUserOnline_eq_false_iff s u).mpr h
  simp only [hoff, Bool.not_false, Bool.true_and, Bool.false_eq_true, if_false]
  cases pok <;> rfl

theorem setUserOnline_true_persisted (s : PState) (u : UserId) (pok : Bool) :
    (setUserOnline s u true pok).persisted =
      if pok then s.persisted ++ [(u, true)] else s.persisted := by
  unfold setUserOnline broadcastUserStatus
  simp only [Bool.not_true, Bool.false_and, Bool.false_eq_true, if_false]
  cases pok <;> rfl

theorem setUserOnline_false_persisted {s : PState} {u : UserId}
    (h : connsFor s.userConnections u = []) (pok : Bool) :
    (setUserOnline s u false pok).persisted =
      if pok then s.persisted ++ [(u, false)] else s.persisted := by
  unfold setUserOnline broadcastUserStatus
  have hoff : isUserOnline s u = false := (isUserOnline_eq_false_iff s u).mpr h
  simp only [hoff, Bool.not_false, Bool.true_and, Bool.false_eq_true, if_false]
  cases pok <;> rfl

theorem connectHandler_userConnections (s : PState) (u : UserId) (ws : ConnId) (pok : Bool) :
    (connectHandler s u ws pok).userConnections = addConnection s.userConnections u ws := by
  unfold connectHandler sendOnlineUsers
  dsimp only
  split
  · rw [setUserOnline_userConnections]
  · rfl

theorem connectHandler_offlineTimeouts (s : PState) (u : UserId) (ws : ConnId) (pok : Bool) :
    (connectHandler s u ws pok).offlineTimeouts =
      s.offlineTimeouts.filter (fun x => x != u) := by
  unfold connectHandler sendOnlineUsers broadcastUserStatus
  dsimp only
  split
  · rw [setUserOnline_offlineTimeouts]
  · rfl

theorem connectHandler_emits (s : PState) (u : UserId) (ws : ConnId) (pok : Bool) :
    (connectHandler s u ws pok).emits = s.emits ++
      [PEmit.status u true,
       PEmit.snapshot ws (AMap.keys (addConnection s.userConnections u ws))] := by
  unfold connectHandler sendOnlineUsers
  dsimp only
  split
  · rw [setUserOnline_userConnections, setUserOnline_true_emits]
    simp
  · unfold broadcastUserStatus
    simp

theorem connectHandler_persisted (s : PState) (u : UserId) (ws : ConnId) (pok : Bool) :
    (connectHandler s u ws pok).persisted =
      if connsFor s.userConnections u = [] then
        (if pok then s.persisted ++ [(u, true)] else s.persisted)
      else s.persisted := by
  unfold connectHandler sendOnlineUsers broadcastUserStatus
  dsimp only
  split
  · rename_i hz
    rw [setUserOnline_true_persisted]
    rw [if_pos ((zeroCheck_true_iff s.userConnections u).mp hz)]
  · rename_i hz
    have hz' : (!(AMap.hasKey s.userConnections u) ||
        ((connsFor s.userConnections u).length == 0)) = false := by
      cases hb : (!(AMap.hasKey s.userConnections u) ||
        ((connsFor s.userConnections u).length == 0))
      · rfl
      · exact absurd hb hz
    rw [if_neg ((zeroCheck_false_iff s.userConnections u).mp hz')]

theorem scheduleOffline_userConnections (s : PState) (u : UserId) :
    (scheduleOffline s u).userConnections = s.userConnections := rfl

theorem scheduleOffline_emits (s : PState) (u : UserId) :
    (scheduleOffline s u).emits = s.emits := rfl

theorem scheduleOffline_persisted (s : PState) (u : UserId) :
    (scheduleOffline s u).persisted = s.persisted := rfl

theorem scheduleOffline_offlineTimeouts (s : PState) (u : UserId) :
    (scheduleOffline s u).offlineTimeouts =
      if s.offlineTimeouts.contains u then s.offlineTimeouts
      else s.offlineTimeouts ++ [u] := rfl

theorem scheduleOffline_contains (s : PState) (u : UserId) :
    (scheduleOffline s u).offlineTimeouts.contains u = true := by
  rw [scheduleOffline_offlineTimeouts]
  by_cases h : s.offlineTimeouts.contains u = true
  · rwa [if_pos h]
  · rw [if_neg h]
    simp

theorem scheduleOffline_contains_noop {s : PState} {u : UserId}
    (h : s.offlineTimeouts.contains u = true) :
    (scheduleOffline s u).offlineTimeouts = s.offlineTimeouts := by
  rw [scheduleOffline_offlineTimeouts, if_pos h]

theorem closeHandler_userConnections (s : PState) (u : UserId) (ws : ConnId) :
    (closeHandler s u ws).userConnections = removeConnection s.userConnections u ws := by
  unfold closeHandler
  dsimp only
  split <;> rfl

theorem closeHandler_emits (s : PState) (u : UserId) (ws : ConnId) :
    (closeHandler s u ws).emits = s.emits := by
  unfold closeHandler
  dsimp only
  split <;> rfl

theorem closeHandler_persisted (s : PState) (u : UserId) (ws : ConnId) :
    (closeHandler s u ws).persisted = s.persisted := by
  unfold closeHandler
  dsimp only
  split <;> rfl

theorem closeHandler_offlineTimeouts (s : PState) (u : UserId) (ws : ConnId) :
    (closeHandler s u ws).offlineTimeouts =
      if connsFor (removeConnection s.userConnections u ws) u = [] then
        (if s.offlineTimeouts.contains u then s.offlineTimeouts
         else s.offlineTimeouts ++ [u])
      else s.offlineTimeouts := by
  unfold closeHandler scheduleOffline
  dsimp only
  split
  · rename_i hz
    rw [if_pos ((zeroCheck_true_iff _ u).mp hz)]
  · rename_i hz
    have hz' : (!(AMap.hasKey (removeConnection s.userConnections u ws) u) ||
        ((connsFor (removeConnection s.userConnections u ws) u).length == 0)) = false := by
      cases hb : (!(AMap.hasKey (removeConnection s.userConnections u ws) u) ||
        ((connsFor (removeConnection s.userConnections u ws) u).length == 0))
      · rfl
      · exact absurd hb hz
    rw [if_neg ((zeroCheck_false_iff _ u).mp hz')]

theorem fireHandler_userConnections (s : PState) (u : UserId) (pok : Bool) :
    (fireHandler s u pok).userConnections = s.userConnections := by
  unfold fireHandler
  dsimp only
  split
  · rw [setUserOnline_userConnections]
  · rfl

theorem fireHandler_offlineTimeouts (s : PState) (u : UserId) (pok : Bool) :
    (fireHandler s u pok).offlineTimeouts =
      s.offlineTimeouts.filter (fun x => x != u) := by
  unfold fireHandler
  dsimp only
  split
  · rw [setUserOnline_offlineTimeouts]
  · rfl

theorem fireHandler_emits_zero {s : PState} {u : UserId}
    (h : connsFor s.userConnections u = []) (pok : Bool) :
    (fireHandler s u pok).emits = s.emits ++ [PEmit.status u false] := by
  unfold fireHandler
  dsimp only
  rw [if_pos ((zeroCheck_true_iff s.userConnections u).mpr h)]
  rw [setUserOnline_false_emits h]

theorem fireHandler_emits_pos {s : PState} {u : UserId}
    (h : connsFor s.userConnections u ≠ []) (pok : Bool) :
    (fireHandler s u pok).emits = s.emits := by
  unfold fireHandler
  dsimp only
  rw [if_neg]
  intro hc
  exact h ((zeroCheck_true_iff s.userConnections u).mp hc)

theorem fireHandler_persisted_zero {s : PState} {u : UserId}
    (h : connsFor s.userConnections u = []) (pok : Bool) :
    (fireHandler s u pok).persisted =
      if pok then s.persisted ++ [(u, false)] else s.persisted := by
  unfold fireHandler
  dsimp only
  rw [if_pos ((zeroCheck_true_iff s.userConnections u).mpr h)]
  rw [setUserOnline_false_persisted h]

theorem fireHandler_persisted_pos {s : PState} {u : UserId}
    (h : connsFor s.userConnections u ≠ []) (pok : Bool) :
    (fireHandler s u pok).persisted = s.persisted := by
  unfold fireHandler
  dsimp only
  rw [if_neg]
  intro hc
  exact h ((zeroCheck_true_iff s.userConnections u).mp hc)

theorem pstep_connect_def (s : PState) (u : UserId) (ws : ConnId) (pok : Bool) :
    pstep s (PEvent.connect u ws pok) = connectHandler s u ws pok := rfl

theorem pstep_close_def (s : PState) (u : UserId) (ws : ConnId) :
    pstep s (PEvent.close u ws) =
      if (connsFor s.userConnections u).contains ws then closeHandler s u ws else s := rfl

theorem pstep_reap_def (s : PState) (u : UserId) (ws : ConnId) :
    pstep s (PEvent.reap u ws) =
      if (connsFor s.userConnections u).contains ws then
        closeHandler
          (scheduleOffline
            { s with userConnections := removeConnection s.userConnections u ws } u) u ws
      else s := rfl

theorem pstep_fire_def (s : PState) (u : UserId) (pok : Bool) :
    pstep s (PEvent.fire u pok) =
      if s.offlineTimeouts.contains u then fireHandler s u pok else s := rfl

theorem regInvariant_pstep {s : PState} (h : regInvariant s.userConnections) (e : PEvent) :
    regInvariant (pstep s e).userConnections := by
  cases e with
  | connect u ws pok =>
    rw [pstep_connect_def, connectHandler_userConnections]
    exact regInvariant_addConnection h u ws
  | close u ws =>
    rw [pstep_close_def]
    split
    · rw [closeHandler_userConnections]
      exact regInvariant_removeConnection h u ws
    · exact h
  | reap u ws =>
    rw [pstep_reap_def]
    split
    · rw [closeHandler_userConnections, scheduleOffline_userConnections]
      exact regInvariant_removeConnection (regInvariant_removeConnection h u ws) u ws
    · exact h
  | fire u pok =>
    rw [pstep_fire_def]
    split
    · rw [fireHandler_userConnections]
      exact h
    · exact h

end PresenceManager

/-- C1: registry key-presence invariant.  Every interleaving of
addConnection and removeConnection preserves: a user is a key of the
userConnections map iff that user's connection set is non-empty (so no
entry is ever an empty set); consequently the invariant holds in every
reachable state of both the PresenceManager and the CallManager. -/
theorem c1_registry_invariant :
    (∀ ops : List RegOp, regInvariant (runRegOps ops)) ∧
    (∀ tr : List PresenceManager.PEvent,
      regInvariant (PresenceManager.prun tr).userConnections) ∧
    (∀ tr : List CallManager.CEvent,
      regInvariant (CallManager.crun tr).userConnections) := by
  refine ⟨?_, ?_, ?_⟩
  · intro ops
    unfold runRegOps
    refine @foldl_preserves Registry RegOp regInvariant applyRegOp ?_ ops [] regInvariant_nil
    intro m op hm
    cases op with
    | add u ws => exact regInvariant_addConnection hm u ws
    | remove u ws => exact regInvariant_removeConnection hm u ws
  · intro tr
    unfold PresenceManager.prun
    refine @foldl_preserves PresenceManager.PState PresenceManager.PEvent
      (fun s => regInvariant s.userConnections) PresenceManager.pstep ?_ tr
      PresenceManager.pinit regInvariant_nil
    intro s e hs
    exact PresenceManager.regInvariant_pstep hs e
  · intro tr
    exact (CallManager.CInv_crun tr).1

namespace PresenceManager

theorem countP_beq_filter_bne {l : List UserId} {u v : UserId} (h : u ≠ v) :
    (l.filter (fun x => x != v)).countP (fun x => x == u) =
      l.countP (fun x => x == u) := by
  rw [List.countP_filter]
  apply List.countP_congr
  intro x _
  constructor
  · intro hx
    rw [Bool.and_eq_true] at hx
    exact hx.1
  · intro hx
    rw [Bool.and_eq_true]
    refine ⟨hx, ?_⟩
    rw [beq_iff_eq] at hx
    subst hx
    simpa using h

theorem countP_beq_filter_bne_self (l : List UserId) (u : UserId) :
    (l.filter (fun x => x != u)).countP (fun x => x == u) = 0 := by
  rw [List.countP_filter, List.countP_eq_zero]
  intro a _
  intro hc
  rw [Bool.and_eq_true] at hc
  obtain ⟨h1, h2⟩ := hc
  rw [beq_iff_eq] at h1
  subst h1
  simp at h2

theorem timerCount_pos_of_contains {s : PState} {u : UserId}
    (h : s.offlineTimeouts.contains u = true) : 1 ≤ timerCount s u := by
  unfold timerCount
  rw [Nat.succ_le, List.countP_pos_iff]
  exact ⟨u, by simpa using h, by simp⟩

theorem timerCount_append_one (l : List UserId) (u v : UserId) :
    (l ++ [v]).countP (fun x => x == u) ≤ l.countP (fun x => x == u) + 1 := by
  rw [List.countP_append]
  have : List.countP (fun x => x == u) [v] ≤ 1 := List.countP_le_length _
  omega

theorem offlineCount_append (a b : List PEmit) (u : UserId) :
    offlineCount (a ++ b) u = offlineCount a u + offlineCount b u :=
  List.countP_append _ a b

theorem offlineCount_connect_payload (u v : UserId) (ws : ConnId) (l : List UserId) :
    offlineCount [PEmit.status v true, PEmit.snapshot ws l] u = 0 := by
  simp [offlineCount]

theorem offlineCount_status_false_self (u : UserId) :
    offlineCount [PEmit.status u false] u = 1 := by
  simp [offlineCount]

theorem offlineCount_status_false_ne {u v : UserId} (h : v ≠ u) :
    offlineCount [PEmit.status v false] u = 0 := by
  simp [offlineCount, h]

theorem length_setAdd_le (s : List ConnId) (ws : ConnId) :
    (setAdd s ws).length ≤ s.length + 1 := by
  unfold setAdd
  split
  · omega
  · simp

theorem length_pos_of_contains {l : List ConnId} {ws : ConnId}
    (h : l.contains ws = true) : 1 ≤ l.length := by
  have hmem : ws ∈ l := by simpa using h
  exact List.length_pos.mpr (List.ne_nil_of_mem hmem)

theorem timerCount_scheduleOffline_le (s : PState) (v u : UserId) :
    timerCount (scheduleOffline s v) u ≤ timerCount s u + 1 := by
  unfold timerCount
  rw [scheduleOffline_offlineTimeouts]
  split
  · omega
  · exact timerCount_append_one _ u v

theorem timerCount_scheduleOffline_ne {s : PState} {v u : UserId} (h : v ≠ u) :
    timerCount (scheduleOffline s v) u = timerCount s u := by
  unfold timerCount
  rw [scheduleOffline_offlineTimeouts]
  split
  · rfl
  · rw [List.countP_append]
    have : List.countP (fun x => x == u) [v] = 0 := by
      simp [List.countP_cons]
      intro hc
      exact absurd hc h
    omega

theorem closeHandler_offlineTimeouts_after_schedule (s : PState) (u : UserId) (ws : ConnId)
    (h : s.offlineTimeouts.contains u = true) :
    (closeHandler s u ws).offlineTimeouts = s.offlineTimeouts := by
  rw [closeHandler_offlineTimeouts]
  split
  · simp [h]
  · rfl

theorem connectCount_connect (v u : UserId) (ws : ConnId) (pok : Bool) :
    connectCount [PEvent.connect v ws pok] u = if v == u then 1 else 0 := by
  simp only [connectCount, List.countP_cons, List.countP_nil]
  split <;> simp_all

theorem connectCount_close (v u : UserId) (ws : ConnId) :
    connectCount [PEvent.close v ws] u = 0 := rfl

theorem connectCount_reap (v u : UserId) (ws : ConnId) :
    connectCount [PEvent.reap v ws] u = 0 := rfl

theorem connectCount_fire (v u : UserId) (pok : Bool) :
    connectCount [PEvent.fire v pok] u = 0 := rfl

theorem pstep_potential (s : PState) (e : PEvent) (u : UserId) :
    offlineCount (pstep s e).emits u + pPot (pstep s e) u ≤
    offlineCount s.emits u + pPot s u + connectCount [e] u := by
  cases e with
  | connect v ws pok =>
    rw [pstep_connect_def, connectCount_connect]
    have hemits : offlineCount (connectHandler s v ws pok).emits u =
        offlineCount s.emits u := by
      rw [connectHandler_emits, offlineCount_append, offlineCount_connect_payload]
      omega
    have htimer : timerCount (connectHandler s v ws pok) u ≤ timerCount s u := by
      unfold timerCount
      rw [connectHandler_offlineTimeouts]
      by_cases hvu : u = v
      · subst hvu
        rw [countP_beq_filter_bne_self]
        omega
      · rw [countP_beq_filter_bne hvu]
  
    by_cases hvu : v = u
    · subst hvu
      have hb : (v == v) = true := by simp
      have hconn : (connsFor (connectHandler s v ws pok).userConnections v).length ≤
          (connsFor s.userConnections v).length + 1 := by
        rw [connectHandler_userConnections, connsFor_addConnection_self]
        exact length_setAdd_le _ _
      unfold pPot
      rw [hemits, hb]
      simp only [if_pos]
      omega
    · have hb : (v == u) = false := by simp [hvu]
      have hconn : connsFor (connectHandler s v ws pok).userConnections u =
          connsFor s.userConnections u := by
        rw [connectHandler_userConnections]
        exact connsFor_addConnection_ne _ _ _ _ (fun hc => hvu hc.symm)
      unfold pPot
      rw [hemits, hconn, hb]
      simp only [Bool.false_eq_true, if_false]
      omega
  | close v ws =>
    rw [pstep_close_def, connectCount_close]
    split
    · rename_i hcont
      have hemits : offlineCount (closeHandler s v ws).emits u =
          offlineCount s.emits u := by
        rw [closeHandler_emits]
      by_cases hvu : v = u
      · subst hvu
        have hlen1 : 1 ≤ (connsFor s.userConnections v).length :=
          length_pos_of_contains hcont
        by_cases hz : connsFor (removeConnection s.userConnections v ws) v = []
        · have hconn0 : connsFor (closeHandler s v ws).userConnections v = [] := by
            rw [closeHandler_userConnections]
            exact hz
          have htimer : timerCount (closeHandler s v ws) v ≤ timerCount s v + 1 := by
            unfold timerCount
            rw [closeHandler_offlineTimeouts, if_pos hz]
            split
            · omega
            · exact timerCount_append_one _ v v
          unfold pPot
          rw [hemits, hconn0]
          simp only [List.length_nil]
          omega
        · have htimer : timerCount (closeHandler s v ws) v = timerCount s v := by
            unfold timerCount
            rw [closeHandler_offlineTimeouts, if_neg hz]
          have hlenle : (connsFor (closeHandler s v ws).userConnections v).length ≤
              (connsFor s.userConnections v).length := by
            rw [closeHandler_userConnections, connsFor_removeConnection_self]
            exact length_setDel_le _ _
          unfold pPot
          rw [hemits, htimer]
          omega
      · have hconn : connsFor (closeHandler s v ws).userConnections u =
            connsFor s.userConnections u := by
          rw [closeHandler_userConnections]
          exact connsFor_removeConnection_ne _ _ _ _ (fun hc => hvu hc.symm)
        have htimer : timerCount (closeHandler s v ws) u = timerCount s u := by
          unfold timerCount
          rw [closeHandler_offlineTimeouts]
          split
          · split
            · rfl
            · rw [List.countP_append]
              have h0 : List.countP (fun x => x == u) [v] = 0 := by
                simp only [List.countP_cons, List.countP_nil, beq_iff_eq]
                split
                · rename_i hc
                  exact absurd hc hvu
                · rfl
              omega
          · rfl
        unfold pPot
        rw [hemits, hconn, htimer]
        omega
    · omega
  | reap v ws =>
    rw [pstep_reap_def, connectCount_reap]
    split
    · rename_i hcont
      have hemits : offlineCount (closeHandler (scheduleOffline
          { s with userConnections := removeConnection s.userConnections v ws } v) v ws).emits u
          = offlineCount s.emits u := by
        rw [closeHandler_emits, scheduleOffline_emits]
      have ht3 : (closeHandler (scheduleOffline
          { s with userConnections := removeConnection s.userConnections v ws } v) v ws).offlineTimeouts
          = (scheduleOffline
              { s with userConnections := removeConnection s.userConnections v ws } v).offlineTimeouts :=
        closeHandler_offlineTimeouts_after_schedule _ v ws (scheduleOffline_contains _ v)
      by_cases hvu : v = u
      · subst hvu
        have hmem : ws ∈ connsFor s.userConnections v := by simpa using hcont
        have hconn3 : connsFor (closeHandler (scheduleOffline
            { s with userConnections := removeConnection s.userConnections v ws } v) v ws).userConnections v
            = setDel (connsFor s.userConnections v) ws := by
          rw [closeHandler_userConnections, connsFor_removeConnection_self,
            scheduleOffline_userConnections]
          have : connsFor ({ s with userConnections := removeConnection s.userConnections v ws } :
              PState).userConnections v = setDel (connsFor s.userConnections v) ws := by
            exact connsFor_removeConnection_self _ _ _
          rw [this, setDel_setDel]
        have hlen : (setDel (connsFor s.userConnections v) ws).length <
            (connsFor s.userConnections v).length :=
          length_setDel_lt_of_mem hmem
        have htimer : timerCount (closeHandler (scheduleOffline
            { s with userConnections := removeConnection s.userConnections v ws } v) v ws) v ≤
            timerCount s v + 1 := by
          unfold timerCount
          rw [ht3]
          exact timerCount_scheduleOffline_le _ v v
        unfold pPot
        rw [hemits, hconn3]
        omega
      · have hconn : connsFor (closeHandler (scheduleOffline
            { s with userConnections := removeConnection s.userConnections v ws } v) v ws).userConnections u
            = connsFor s.userConnections u := by
          rw [closeHandler_userConnections, connsFor_removeConnection_ne _ _ _ _
            (fun hc => hvu hc.symm), scheduleOffline_userConnections]
          exact connsFor_removeConnection_ne _ _ _ _ (fun hc => hvu hc.symm)
        have htimer : timerCount (closeHandler (scheduleOffline
            { s with userConnections := removeConnection s.userConnections v ws } v) v ws) u
            = timerCount s u := by
          unfold timerCount
          rw [ht3]
          exact timerCount_scheduleOffline_ne (fun hc => hvu hc)
        unfold pPot
        rw [hemits, hconn, htimer]
        omega
    · omega
  | fire v pok =>
    rw [pstep_fire_def, connectCount_fire]
    split
    · rename_i hcont
      have ht : timerCount (fireHandler s v pok) u ≤ timerCount s u := by
        unfold timerCount
        rw [fireHandler_offlineTimeouts]
        by_cases hvu : u = v
        · subst hvu
          rw [countP_beq_filter_bne_self]
          omega
        · rw [countP_beq_filter_bne hvu]
      by_cases hvu : v = u
      · subst hvu
        have ht0 : timerCount (fireHandler s v pok) v = 0 := by
          unfold timerCount
          rw [fireHandler_offlineTimeouts]
          exact countP_beq_filter_bne_self _ v
        have ht1 : 1 ≤ timerCount s v := timerCount_pos_of_contains hcont
        by_cases hz : connsFor s.userConnections v = []
        · have he : offlineCount (fireHandler s v pok).emits v =
              offlineCount s.emits v + 1 := by
            rw [fireHandler_emits_zero hz, offlineCount_append, offlineCount_status_false_self]
          unfold pPot
          rw [fireHandler_userConnections, he, ht0]
          omega
        · have he : offlineCount (fireHandler s v pok).emits v = offlineCount s.emits v := by
            rw [fireHandler_emits_pos hz]
          unfold pPot
          rw [fireHandler_userConnections, he, ht0]
          omega
      · have he : offlineCount (fireHandler s v pok).emits u = offlineCount s.emits u := by
          by_cases hz : connsFor s.userConnections v = []
          · rw [fireHandler_emits_zero hz, offlineCount_append,
              offlineCount_status_false_ne hvu]
            omega
          · rw [fireHandler_emits_pos hz]
        unfold pPot
        rw [fireHandler_userConnections, he]
        omega
    · omega

theorem prunFrom_potential (u : UserId) :
    ∀ (tr : List PEvent) (s : PState),
      offlineCount (prunFrom s tr).emits u + pPot (prunFrom s tr) u ≤
      offlineCount s.emits u + pPot s u + connectCount tr u := by
  intro tr
  induction tr with
  | nil =>
    intro s
    simp [prunFrom, connectCount]
  | cons e tr ih =>
    intro s
    have h1 := pstep_potential s e u
    have h2 := ih (pstep s e)
    have hc : connectCount (e :: tr) u = connectCount [e] u + connectCount tr u := by
      unfold connectCount
      rw [List.countP_cons, List.countP_cons, List.countP_nil]
      omega
    have hstep : prunFrom s (e :: tr) = prunFrom (pstep s e) tr := rfl
    rw [hstep, hc]
    omega

theorem prun_offlineCount_le_connectCount (tr : List PEvent) (u : UserId) :
    offlineCount (prun tr).emits u ≤ connectCount tr u := by
  have h := prunFrom_potential u tr pinit
  have hprun : prun tr = prunFrom pinit tr := rfl
  have hinit1 : offlineCount pinit.emits u = 0 := rfl
  have hinit2 : pPot pinit u = 0 := rfl
  rw [hprun]
  omega

theorem contains_false_filter {l : List UserId} {u : UserId} (p : UserId → Bool)
    (h : l.contains u = false) : (l.filter p).contains u = false := by
  cases hc : (l.filter p).contains u
  · rfl
  · have hm : u ∈ l.filter p := by simpa using hc
    have : u ∈ l := (List.mem_filter.mp hm).1
    rw [show l.contains u = true by simpa using this] at h
    cases h

theorem not_contains_filter_bne_self (l : List UserId) (u : UserId) :
    (l.filter (fun x => x != u)).contains u = false := by
  cases hc : (l.filter (fun x => x != u)).contains u
  · rfl
  · simp at hc

theorem contains_false_append_ne {l : List UserId} {u v : UserId} (hvu : v ≠ u)
    (h : l.contains u = false) : (l ++ [v]).contains u = false := by
  cases hc : (l ++ [v]).contains u
  · rfl
  · have hm : u ∈ l ++ [v] := by simpa using hc
    rcases List.mem_append.mp hm with hm | hm
    · rw [show l.contains u = true by simpa using hm] at h
      cases h
    · simp at hm
      exact absurd hm.symm hvu

theorem contains_false_scheduleOffline_ne {s : PState} {u v : UserId} (hvu : v ≠ u)
    (h : s.offlineTimeouts.contains u = false) :
    (scheduleOffline s v).offlineTimeouts.contains u = false := by
  rw [scheduleOffline_offlineTimeouts]
  split
  · exact h
  · exact contains_false_append_ne hvu h

theorem contains_false_closeHandler_ne {s : PState} {u v : UserId} {ws : ConnId}
    (hvu : v ≠ u) (h : s.offlineTimeouts.contains u = false) :
    (closeHandler s v ws).offlineTimeouts.contains u = false := by
  rw [closeHandler_offlineTimeouts]
  split
  · split
    · exact h
    · exact contains_false_append_ne hvu h
  · exact h

/-- One step that is neither a close nor a reap of u keeps u timerless and
emits no offline broadcast for u. -/
theorem pstep_no_disconnect_keeps {s : PState} {u : UserId} (e : PEvent)
    (htimer : s.offlineTimeouts.contains u = false)
    (hnc : ∀ ws, e ≠ PEvent.close u ws)
    (hnr : ∀ ws, e ≠ PEvent.reap u ws) :
    (pstep s e).offlineTimeouts.contains u = false ∧
    offlineCount (pstep s e).emits u = offlineCount s.emits u := by
  cases e with
  | connect v ws pok =>
    rw [pstep_connect_def]
    constructor
    · rw [connectHandler_offlineTimeouts]
      exact contains_false_filter _ htimer
    · rw [connectHandler_emits, offlineCount_append, offlineCount_connect_payload]
      omega
  | close v ws =>
    have hvu : v ≠ u := by
      intro hc
      subst hc
      exact (hnc ws) rfl
    rw [pstep_close_def]
    split
    · exact ⟨contains_false_closeHandler_ne hvu htimer, by rw [closeHandler_emits]⟩
    · exact ⟨htimer, rfl⟩
  | reap v ws =>
    have hvu : v ≠ u := by
      intro hc
      subst hc
      exact (hnr ws) rfl
    rw [pstep_reap_def]
    split
    · constructor
      · exact contains_false_closeHandler_ne hvu
          (contains_false_scheduleOffline_ne hvu htimer)
      · rw [closeHandler_emits, scheduleOffline_emits]
    · exact ⟨htimer, rfl⟩
  | fire v pok =>
    rw [pstep_fire_def]
    split
    · rename_i hcont
      have hvu : v ≠ u := by
        intro hc
        subst hc
        rw [hcont] at htimer
        cases htimer
      constructor
      · rw [fireHandler_offlineTimeouts]
        exact contains_false_filter _ htimer
      · by_cases hz : connsFor s.userConnections v = []
        · rw [fireHandler_emits_zero hz, offlineCount_append,
            offlineCount_status_false_ne hvu]
          omega
        · rw [fireHandler_emits_pos hz]
    · exact ⟨htimer, rfl⟩

theorem prunFrom_no_disconnect_keeps {u : UserId} :
    ∀ (tr : List PEvent) (s : PState),
      s.offlineTimeouts.contains u = false →
      (∀ e ∈ tr, (∀ ws, e ≠ PEvent.close u ws) ∧ (∀ ws, e ≠ PEvent.reap u ws)) →
      offlineCount (prunFrom s tr).emits u = offlineCount s.emits u := by
  intro tr
  induction tr with
  | nil =>
    intro s _ _
    rfl
  | cons e tr ih =>
    intro s htimer hne
    have hstep := pstep_no_disconnect_keeps e htimer
      (hne e (List.mem_cons_self e tr)).1 (hne e (List.mem_cons_self e tr)).2
    have hrec := ih (pstep s e) hstep.1
      (fun e2 he2 => hne e2 (List.mem_cons_of_mem e he2))
    have hstep2 : prunFrom s (e :: tr) = prunFrom (pstep s e) tr := rfl
    rw [hstep2, hrec, hstep.2]

/-- C3: exactly-one offline broadcast.  (1) In any trace the number of
offline user_status broadcasts for u never exceeds the number of successful
connects of u, so repeated disconnect events without an intervening
reconnect cannot produce duplicate offline broadcasts.  (2) The timer
callback re-checks the connection count at fire time: a pending timer firing
while u still has a connection emits nothing and persists nothing.  (3) A
pending timer firing while u has zero connections emits exactly one offline
broadcast.  (4) Closing u's last registered connection leaves an offline
timer pending. -/
theorem c3_exactly_one_offline_broadcast :
    (∀ (tr : List PEvent) (u : UserId),
      offlineCount (prun tr).emits u ≤ connectCount tr u) ∧
    (∀ (s : PState) (u : UserId) (pok : Bool),
      connsFor s.userConnections u ≠ [] →
      (pstep s (PEvent.fire u pok)).emits = s.emits ∧
      (pstep s (PEvent.fire u pok)).persisted = s.persisted) ∧
    (∀ (s : PState) (u : UserId) (pok : Bool),
      s.offlineTimeouts.contains u = true →
      connsFor s.userConnections u = [] →
      (pstep s (PEvent.fire u pok)).emits = s.emits ++ [PEmit.status u false]) ∧
    (∀ (s : PState) (u : UserId) (ws : ConnId),
      ws ∈ connsFor s.userConnections u →
      connsFor (removeConnection s.userConnections u ws) u = [] →
      (pstep s (PEvent.close u ws)).offlineTimeouts.contains u = true) := by
  refine ⟨prun_offlineCount_le_connectCount, ?_, ?_, ?_⟩
  · intro s u pok hon
    rw [pstep_fire_def]
    split
    · exact ⟨fireHandler_emits_pos hon pok, fireHandler_persisted_pos hon pok⟩
    · exact ⟨rfl, rfl⟩
  · intro s u pok hcont hz
    rw [pstep_fire_def, if_pos hcont]
    exact fireHandler_emits_zero hz pok
  · intro s u ws hmem hz
    have hcont : (connsFor s.userConnections u).contains ws = true := by simpa using hmem
    rw [pstep_close_def, if_pos hcont, closeHandler_offlineTimeouts, if_pos hz]
    split
    · assumption
    · simp

theorem c3_witness :
    offlineCount (prun []).emits "a" ≤ connectCount [] "a" ∧
    ((pstep (prun [PEvent.connect "a" 1 true]) (PEvent.fire "a" true)).emits =
      (prun [PEvent.connect "a" 1 true]).emits ∧
     (pstep (prun [PEvent.connect "a" 1 true]) (PEvent.fire "a" true)).persisted =
      (prun [PEvent.connect "a" 1 true]).persisted) ∧
    (pstep (prun [PEvent.connect "a" 1 true, PEvent.close "a" 1])
        (PEvent.fire "a" true)).emits =
      (prun [PEvent.connect "a" 1 true, PEvent.close "a" 1]).emits ++
        [PEmit.status "a" false] ∧
    (pstep (prun [PEvent.connect "a" 1 true])
        (PEvent.close "a" 1)).offlineTimeouts.contains "a" = true := by
  refine ⟨c3_exactly_one_offline_broadcast.1 [] "a", ?_, ?_, ?_⟩
  · exact c3_exactly_one_offline_broadcast.2.1 (prun [PEvent.connect "a" 1 true]) "a" true
      (by decide)
  · exact c3_exactly_one_offline_broadcast.2.2.1
      (prun [PEvent.connect "a" 1 true, PEvent.close "a" 1]) "a" true
      (by decide) (by decide)
  · exact c3_exactly_one_offline_broadcast.2.2.2 (prun [PEvent.connect "a" 1 true]) "a" 1
      (by decide) (by decide)

/-- C4: the grace period absorbs blips.  (1) A successful reconnect cancels
and deletes any pending offline timer for the user and leaves the user with
an open connection.  (2) From any state in which u has no pending timer, as
long as no further close or reap event for u occurs, no offline broadcast
for u is ever emitted, so the absorbed disconnect never produces one. -/
theorem c4_grace_absorbs_blips :
    (∀ (s : PState) (u : UserId) (ws : ConnId) (pok : Bool),
      (pstep s (PEvent.connect u ws pok)).offlineTimeouts.contains u = false ∧
      connsFor (pstep s (PEvent.connect u ws pok)).userConnections u ≠ []) ∧
    (∀ (s : PState) (u : UserId) (tr : List PEvent),
      s.offlineTimeouts.contains u = false →
      (∀ e ∈ tr, (∀ ws, e ≠ PEvent.close u ws) ∧ (∀ ws, e ≠ PEvent.reap u ws)) →
      offlineCount (prunFrom s tr).emits u = offlineCount s.emits u) := by
  constructor
  · intro s u ws pok
    constructor
    · rw [pstep_connect_def, connectHandler_offlineTimeouts]
      exact not_contains_filter_bne_self _ u
    · rw [pstep_connect_def, connectHandler_userConnections, connsFor_addConnection_self]
      exact setAdd_ne_nil _ _
  · intro s u tr htimer hne
    exact prunFrom_no_disconnect_keeps tr s htimer hne

theorem c4_witness :
    ((pstep (prun [PEvent.connect "a" 1 true, PEvent.close "a" 1])
        (PEvent.connect "a" 2 true)).offlineTimeouts.contains "a" = false ∧
     connsFor (pstep (prun [PEvent.connect "a" 1 true, PEvent.close "a" 1])
        (PEvent.connect "a" 2 true)).userConnections "a" ≠ []) ∧
    offlineCount (prunFrom
        (pstep (prun [PEvent.connect "a" 1 true, PEvent.close "a" 1])
          (PEvent.connect "a" 2 true))
        [PEvent.connect "b" 3 true, PEvent.fire "a" true, PEvent.fire "b" true]).emits "a" =
      offlineCount (pstep (prun [PEvent.connect "a" 1 true, PEvent.close "a" 1])
        (PEvent.connect "a" 2 true)).emits "a" := by
  constructor
  · exact c4_grace_absorbs_blips.1 (prun [PEvent.connect "a" 1 true, PEvent.close "a" 1])
      "a" 2 true
  · refine c4_grace_absorbs_blips.2
      (pstep (prun [PEvent.connect "a" 1 true, PEvent.close "a" 1])
        (PEvent.connect "a" 2 true)) "a"
      [PEvent.connect "b" 3 true, PEvent.fire "a" true, PEvent.fire "b" true]
      (by decide) ?_
    intro e he
    rcases List.mem_cons.mp he with rfl | he
    · exact ⟨(fun ws hc => nomatch hc), (fun ws hc => nomatch hc)⟩
    rcases List.mem_cons.mp he with rfl | he
    · exact ⟨(fun ws hc => nomatch hc), (fun ws hc => nomatch hc)⟩
    rcases List.mem_cons.mp he with rfl | he
    · exact ⟨(fun ws hc => nomatch hc), (fun ws hc => nomatch hc)⟩
    cases he

/-- C8 (amended): a connect by a user who already has another open presence
connection skips the persistence update but STILL broadcasts a user_status
online event (the else branch of the connect handler calls
broadcastUserStatus); only the true Offline-to-Online edge persists.  In
both cases the new connection is immediately sent the snapshot of all
currently-online user identities. -/
theorem c8_connect_broadcast :
    ∀ (s : PState) (u : UserId) (ws : ConnId) (pok : Bool),
      ((connsFor s.userConnections u ≠ [] →
        (pstep s (PEvent.connect u ws pok)).persisted = s.persisted) ∧
       (connsFor s.userConnections u = [] →
        (pstep s (PEvent.connect u ws pok)).persisted =
          (if pok then s.persisted ++ [(u, true)] else s.persisted))) ∧
      (pstep s (PEvent.connect u ws pok)).emits = s.emits ++
        [PEmit.status u true,
         PEmit.snapshot ws (AMap.keys (addConnection s.userConnections u ws))] := by
  intro s u ws pok
  refine ⟨⟨?_, ?_⟩, ?_⟩
  · intro hon
    rw [pstep_connect_def, connectHandler_persisted, if_neg hon]
  · intro hoff
    rw [pstep_connect_def, connectHandler_persisted, if_pos hoff]
  · rw [pstep_connect_def, connectHandler_emits]

/-- C8 counterexample: user a already has an open connection; a second
connect performs no persistence update but DOES emit a user_status online
broadcast, refuting the claim that no broadcast is performed off the
Offline-to-Online edge. -/
theorem c8_counterexample :
    connsFor (prun [PEvent.connect "a" 1 true]).userConnections "a" ≠ [] ∧
    (pstep (prun [PEvent.connect "a" 1 true]) (PEvent.connect "a" 2 true)).persisted =
      (prun [PEvent.connect "a" 1 true]).persisted ∧
    (pstep (prun [PEvent.connect "a" 1 true]) (PEvent.connect "a" 2 true)).emits =
      (prun [PEvent.connect "a" 1 true]).emits ++
        [PEmit.status "a" true, PEmit.snapshot 2 ["a"]] := by
  decide

theorem c8_witness :
    (pstep (prun [PEvent.connect "a" 1 true]) (PEvent.connect "a" 2 true)).persisted =
      (prun [PEvent.connect "a" 1 true]).persisted ∧
    (pstep pinit (PEvent.connect "a" 1 true)).persisted =
      (if true then pinit.persisted ++ [("a", true)] else pinit.persisted) ∧
    (pstep (prun [PEvent.connect "a" 1 true]) (PEvent.connect "a" 2 true)).emits =
      (prun [PEvent.connect "a" 1 true]).emits ++
        [PEmit.status "a" true,
         PEmit.snapshot 2 (AMap.keys (addConnection
           (prun [PEvent.connect "a" 1 true]).userConnections "a" 2))] := by
  refine ⟨?_, ?_, ?_⟩
  · exact (c8_connect_broadcast (prun [PEvent.connect "a" 1 true]) "a" 2 true).1.1
      (by decide)
  · exact (c8_connect_broadcast pinit "a" 1 true).1.2 (by decide)
  · exact (c8_connect_broadcast (prun [PEvent.connect "a" 1 true]) "a" 2 true).2

/-- C9: persistence failure is non-blocking.  For both operations that call
the external persistence (the Offline-to-Online edge of a connect, and the
offline flip inside the grace-timer callback), a throwing persistence call
changes nothing observable: the connection registry, the pending timers and
the emitted broadcasts are identical to the success case, and the new
connection stays registered. -/
theorem c9_persistence_nonblocking :
    ∀ (s : PState) (u : UserId) (ws : ConnId),
      ((pstep s (PEvent.connect u ws false)).userConnections =
        (pstep s (PEvent.connect u ws true)).userConnections ∧
       (pstep s (PEvent.connect u ws false)).offlineTimeouts =
        (pstep s (PEvent.connect u ws true)).offlineTimeouts ∧
       (pstep s (PEvent.connect u ws false)).emits =
        (pstep s (PEvent.connect u ws true)).emits) ∧
      ((pstep s (PEvent.fire u false)).userConnections =
        (pstep s (PEvent.fire u true)).userConnections ∧
       (pstep s (PEvent.fire u false)).offlineTimeouts =
        (pstep s (PEvent.fire u true)).offlineTimeouts ∧
       (pstep s (PEvent.fire u false)).emits =
        (pstep s (PEvent.fire u true)).emits) := by
  intro s u ws
  constructor
  · refine ⟨?_, ?_, ?_⟩
    · rw [pstep_connect_def, pstep_connect_def,
        connectHandler_userConnections, connectHandler_userConnections]
    · rw [pstep_connect_def, pstep_connect_def,
        connectHandler_offlineTimeouts, connectHandler_offlineTimeouts]
    · rw [pstep_connect_def, pstep_connect_def,
        connectHandler_emits, connectHandler_emits]
  · rw [pstep_fire_def, pstep_fire_def]
    split
    · refine ⟨?_, ?_, ?_⟩
      · rw [fireHandler_userConnections, fireHandler_userConnections]
      · rw [fireHandler_offlineTimeouts, fireHandler_offlineTimeouts]
      · by_cases hz : connsFor s.userConnections u = []
        · rw [fireHandler_emits_zero hz, fireHandler_emits_zero hz]
        · rw [fireHandler_emits_pos hz, fireHandler_emits_pos hz]
    · exact ⟨rfl, rfl, rfl⟩

end PresenceManager
